import Mathlib

/-!
# dump: range-partitioned table export to CSV

A shallow embedding of `src/main.go`.  Package-level variables become the
record `Globals`, `log.Fatal` and run-time panics become `Except` errors,
Go `int` values are modelled by `Int` (all planner values stay inside
`[0, totalCount]`, so 64-bit wrap-around never occurs), and the database,
the cursor and the CSV writer are represented by explicit result records.
-/

namespace Dump

/-! ## Package-level state -/

/-- The flag variables declared at `main.go:24-31`. -/
structure Globals where
  sharding : Int
  tableName : String
  csvFileName : String
  dialect : String
  dsn : String
  withHead : Bool
  deriving DecidableEq, Repr

deriving instance DecidableEq for Except

/-- How a call that does not return normally ends: `log.Fatal` or a run-time panic. -/
inductive Failure where
  | fatal (msg : String)
  | crash (msg : String)
  deriving DecidableEq, Repr

/-! ## `isBlank` and `strings.TrimSpace` -/

/-- Go `unicode.IsSpace`: the Latin-1 cases and the `White_Space` table. -/
def isSpace (c : Char) : Bool :=
  let n := c.toNat
  (9 ≤ n && n ≤ 13) || n == 32 || n == 133 || n == 160 || n == 5760 ||
  (8192 ≤ n && n ≤ 8202) || n == 8232 || n == 8233 || n == 8239 || n == 8287 || n == 12288

/-- Go `strings.TrimSpace`: leading and trailing white space removed. -/
def TrimSpace (s : String) : String :=
  String.mk (((s.data.dropWhile isSpace).reverse.dropWhile isSpace).reverse)

/-- `isBlank` (`main.go:281-283`). -/
def isBlank (s : String) : Bool :=
  TrimSpace s == ""

/-! ## `checkCmdParams` -/

/-- `checkCmdParams` (`main.go:257-279`); `log.Fatal` is `Except.error`. -/
def checkCmdParams (g : Globals) (totalCount : Int) : Except Failure Globals :=
  if totalCount == 0 then
    .error (.fatal "no data to export")
  else
    let g := if g.sharding ≤ 0 then { g with sharding := 1 } else g
    let g := if g.sharding > totalCount then { g with sharding := totalCount } else g
    if isBlank g.tableName then
      .error (.fatal "tableName is required")
    else if isBlank g.dialect then
      .error (.fatal "dialect is required")
    else if isBlank g.dsn then
      .error (.fatal "dsn is required")
    else
      .ok (if isBlank g.csvFileName then { g with csvFileName := g.tableName ++ ".csv" } else g)

/-! ## The partition planner inside `main` -/

/-- The fields of `ExportThread` (`main.go:92-99`) that the planner fixes. -/
structure ExportThread where
  min : Int
  max : Int
  threadName : String
  deriving DecidableEq, Repr

/-- `NewExportThread` (`main.go:101-103`), without the handles. -/
def NewExportThread (min max : Int) (threadName : String) : ExportThread :=
  { min := min, max := max, threadName := threadName }

/-- The body of the loop of `main.go:75-86` for the index `i`: the exporter it
creates. -/
def shardAt (totalCount sharding shardingSize i : Int) : ExportThread :=
  let min := i * shardingSize
  let max := min + shardingSize - 1
  let max := if i == sharding - 1 then totalCount - 1 else max
  NewExportThread min max ("thread-" ++ toString i)

/-- The `for i := 0; i < sharding; i++` loop of `main.go:75-86`, started at `i`;
the first argument bounds the number of iterations. -/
def shardLoop (totalCount sharding shardingSize : Int) : Nat → Int → List ExportThread
  | 0, _ => []
  | fuel + 1, i =>
    if i < sharding then
      shardAt totalCount sharding shardingSize i ::
        shardLoop totalCount sharding shardingSize fuel (i + 1)
    else
      []

/-- Lines 74-86 of `main`: `shardingSize := totalCount / sharding` (Go division
truncates toward zero) and one exporter per loop iteration. -/
def planShards (totalCount sharding : Int) : List ExportThread :=
  shardLoop totalCount sharding (totalCount.tdiv sharding) sharding.toNat 0

/-- The `(min, max)` pairs handed to the exporters. -/
def planRanges (totalCount sharding : Int) : List (Int × Int) :=
  (planShards totalCount sharding).map (fun t => (t.min, t.max))

/-! ## The capability probe `isOldVersionSqlserver` -/

/-- The four dialectors `getDialector` can build. -/
inductive Dialector where
  | mysql
  | postgres
  | sqlite
  | sqlserver
  deriving DecidableEq, Repr

/-- The value of `Dialector.Name()` for each gorm driver. -/
def Dialector.Name : Dialector → String
  | .mysql => "mysql"
  | .postgres => "postgres"
  | .sqlite => "sqlite"
  | .sqlserver => "sqlserver"

/-- `getDialector` (`main.go:207-224`). -/
def getDialector (dialect : String) : Except Failure Dialector :=
  if dialect == "mysql" then .ok .mysql
  else if dialect == "postgres" then .ok .postgres
  else if dialect == "sqlite" then .ok .sqlite
  else if dialect == "sqlserver" then .ok .sqlserver
  else .error (.fatal "Unsupported dialect")

/-- The class `\d` of Go regular expressions: ASCII digits only. -/
def isDigit (c : Char) : Bool :=
  48 ≤ c.toNat && c.toNat ≤ 57

/-- The class `.` of Go regular expressions without the `s` flag. -/
def notNewline (c : Char) : Bool :=
  c != '\n'

/-- The literal `\.`. -/
def isDot (c : Char) : Bool :=
  c == '.'

/-- One item of a pattern that is a plain sequence: a single character of a
class, or a greedy repetition `+` of a class. -/
inductive Atom where
  | one (p : Char → Bool)
  | many1 (p : Char → Bool)

/-- Backtracking over the lengths a greedy `+` may take, longest first: the rest
of the pattern `cont` is tried after `n`, `n - 1`, ..., `1` characters. -/
def tryLens (cont : List Char → Option (List (List Char))) (s : List Char) :
    Nat → Option (List (List Char))
  | 0 => none
  | n + 1 =>
    match cont (s.drop (n + 1)) with
    | some r => some (s.take (n + 1) :: r)
    | none => tryLens cont s n

/-- Anchored match of a sequence of atoms at the start of `s`, in the order a
backtracking search explores it (Go's leftmost-first semantics). The result lists
the text consumed by each atom. -/
def matchAtoms : List Atom → List Char → Option (List (List Char))
  | [], _ => some []
  | .one p :: rest, s =>
    match s with
    | [] => none
    | c :: s' =>
      if p c then
        match matchAtoms rest s' with
        | some r => some ([c] :: r)
        | none => none
      else none
  | .many1 p :: rest, s => tryLens (matchAtoms rest) s (s.takeWhile p).length

/-- Leftmost match: start positions are tried from left to right. -/
def findAtoms (atoms : List Atom) : List Char → Option (List (List Char))
  | [] => matchAtoms atoms []
  | c :: s =>
    match matchAtoms atoms (c :: s) with
    | some r => some r
    | none => findAtoms atoms s

/-- A compiled pattern: a sequence of atoms with one capture group around the
atom at index `group`. -/
structure Regexp where
  atoms : List Atom
  group : Nat

/-- `Regexp.FindStringSubmatch`: the whole match followed by the text of group 1,
or the empty (nil) slice when there is no match. -/
def Regexp.FindStringSubmatch (re : Regexp) (s : String) : List String :=
  match findAtoms re.atoms s.data with
  | none => []
  | some pieces => [String.mk pieces.flatten, String.mk (pieces.getD re.group [])]

/-- The pattern compiled at `main.go:290`: `(\d+).\d+.\d+\.\d+`.  Only the last
dot is escaped; the first two match any character but a newline. -/
def versionRe : Regexp :=
  { atoms := [.many1 isDigit, .one notNewline, .many1 isDigit, .one notNewline,
              .many1 isDigit, .one isDot, .many1 isDigit],
    group := 0 }

/-- Decimal value of a list of digit characters. -/
def digitsValue (ds : List Char) : Nat :=
  ds.foldl (fun a c => a * 10 + (c.toNat - 48)) 0

/-- Go `strconv.Atoi` on a 64-bit platform: the value and whether the error is
nil.  A syntax error yields 0, a range error the nearest bound. -/
def Atoi (s : String) : Int × Bool :=
  let neg := s.data.head? == some '-'
  let ds := if s.data.head? == some '-' || s.data.head? == some '+' then s.data.tail else s.data
  if ds.isEmpty || !ds.all isDigit then (0, false)
  else
    let n := digitsValue ds
    if !neg && n ≥ 2 ^ 63 then (2 ^ 63 - 1, false)
    else if neg && n > 2 ^ 63 then (-(2 ^ 63), false)
    else (if neg then -(n : Int) else (n : Int), true)

/-- `isOldVersionSqlserver` (`main.go:285-296`).  `name` is `db.Dialector.Name()`
and `v` the string scanned from `select @@version` (empty when the query or the
scan fails, as both errors are discarded).  Indexing the nil slice panics. -/
def isOldVersionSqlserver (name : String) (v : String) : Except Failure Bool :=
  if name == "sqlserver" then
    let args := versionRe.FindStringSubmatch v
    match args.get? 1 with
    | none => .error (.crash "index out of range [1] with length 0")
    | some a =>
      let majorVer := (Atoi a).1
      .ok (decide (majorVer ≤ 10))
  else
    .ok false

/-! ## `main` up to the launch of the exporters -/

/-- What `main` obtains from outside: the outcome of opening the database, the
server's version string, the row count and the outcome of opening the file. -/
structure MainEnv where
  openDBErr : Option String
  version : String
  totalCount : Int
  openFileErr : Option String

/-- `main` (`main.go:44-86`) up to the point where the exporters are started:
the globals as left by `main` and the exporters it creates, in loop order. -/
def main (g : Globals) (env : MainEnv) : Except Failure (Globals × List ExportThread) :=
  match getDialector g.dialect with
  | .error e => .error e
  | .ok d =>
    match env.openDBErr with
    | some e => .error (.fatal e)
    | none =>
      match checkCmdParams g env.totalCount with
      | .error e => .error e
      | .ok g =>
        match env.openFileErr with
        | some e => .error (.fatal e)
        | none =>
          match isOldVersionSqlserver d.Name env.version with
          | .error e => .error e
          | .ok old =>
            let g := if old then { g with sharding := 1 } else g
            if g.sharding < 0 then
              .error (.crash "sync: negative WaitGroup counter")
            else if g.sharding == 0 then
              .error (.crash "integer divide by zero")
            else
              .ok (g, planShards env.totalCount g.sharding)

/-! ## `ExportThread.WriteCSV` -/

/-- The statement that `db.Rows()` executes: the table, with the offset and the
limit when `Offset`/`Limit` were applied. -/
structure Query where
  table : String
  offset : Option Int
  limit : Option Int
  deriving DecidableEq, Repr

/-- Lines 108-111 of `WriteCSV`: `Offset`/`Limit` are applied unless the probe
reports an old SQL Server. -/
def tableQuery (tableName : String) (old : Bool) (t : ExportThread) : Query :=
  if !old then
    { table := tableName, offset := some t.min, limit := some (t.max - t.min + 1) }
  else
    { table := tableName, offset := none, limit := none }

/-- The state of one `csv.Writer`, record by record: the records written but not
yet flushed to the file, and the sticky error of its buffered writer.  The bytes,
and the moments at which the buffer of 4096 bytes writes them to the file, are
followed further down. -/
structure Writer where
  pending : List (List String)
  err : Option String
  deriving DecidableEq, Repr

/-- Result of `csv.NewWriter(f)`. -/
def Writer.new : Writer :=
  { pending := [], err := none }

/-- `csv.Writer.Write`: `fault` is the error the underlying file raises during
this call, if any.  Once an error is recorded every later call returns it. -/
def Writer.Write (w : Writer) (record : List String) (fault : Option String) :
    Writer × Option String :=
  match w.err with
  | some e => (w, some e)
  | none =>
    match fault with
    | some e => ({ w with err := some e }, some e)
    | none => ({ w with pending := w.pending ++ [record] }, none)

/-- `csv.Writer.Flush` on the shared file: the pending records reach the file
unless an error is recorded or raised. -/
def Writer.Flush (w : Writer) (file : List (List String)) (fault : Option String) :
    Writer × List (List String) :=
  match w.err with
  | some _ => (w, file)
  | none =>
    match fault with
    | some e => ({ w with err := some e }, file)
    | none => ({ w with pending := [] }, file ++ w.pending)

/-- `csv.Writer.Error`. -/
def Writer.Error (w : Writer) : Option String :=
  w.err

/-- What `rows.Scan` leaves behind for one row: the contents of `rawResult`
(`none` is a nil slice) and the error it returns. -/
structure ScanResult where
  raw : List (Option String)
  err : Option String
  deriving DecidableEq, Repr

/-- What one exporter obtains from the database and the file: the results of
`db.Rows()`, `rows.Columns()`, each `rows.Next()`/`rows.Scan`, `rows.Err()`, and
the errors raised by the file during the writes and flushes of the exporter. -/
structure ThreadEnv where
  rowsErr : Option String
  columns : Except String (List String)
  scans : List ScanResult
  nextErr : Option String
  headWriteErr : Option String
  headFlushErr : Option String
  writeErr : Nat → Option String
  flushErr : Nat → Option String
  finalFlushErr : Option String

/-- The state shared by all exporters: the globals, the mutex `mtx`, the records
that reached the output file and the counter of the wait group. -/
structure World where
  g : Globals
  mtxLocked : Bool
  file : List (List String)
  wg : Int
  deriving DecidableEq, Repr

/-- How the header section ends for one exporter. -/
inductive SectionExit where
  | passed
  | failed (err : String)
  | blocked
  deriving DecidableEq, Repr

/-- Lines 118-130 of `WriteCSV`: `mtx.Lock()`, the check of `withHead`, the write
and flush of the header, the reset of the flag, `mtx.Unlock()`.  The two early
returns leave the section without unlocking. -/
def headerSection (env : ThreadEnv) (w : Writer) (σ : World) : SectionExit × Writer × World :=
  if σ.mtxLocked then
    (.blocked, w, σ)
  else
    let σ := { σ with mtxLocked := true }
    if σ.g.withHead then
      match env.columns with
      | .error e => (.failed e, w, σ)
      | .ok columns =>
        match w.Write columns env.headWriteErr with
        | (w, some e) => (.failed e, w, σ)
        | (w, none) =>
          let (w, file) := w.Flush σ.file env.headFlushErr
          let σ := { σ with file := file, g := { σ.g with withHead := false } }
          (.passed, w, { σ with mtxLocked := false })
    else
      (.passed, w, { σ with mtxLocked := false })

/-- The conversion of `rawResult` into `result` (`main.go:182-188`). -/
def toRecord (raw : List (Option String)) : List String :=
  raw.map (fun r => match r with | none => "" | some b => b)

/-- What the row loop leaves: the message of `log.Fatal` if it was reached, the
writer, the file and the number of `bar.Incr()` calls. -/
structure LoopExit where
  fatal : Option String
  writer : Writer
  file : List (List String)
  processed : Nat
  deriving DecidableEq, Repr

/-- The loop `for i := 1; rows.Next(); i++` of `main.go:180-198`, at counter `i`
with the rows still to come.  The results of `Scan` and `Write` are discarded;
only `Error()` after the flush of every 1000th row is examined. -/
def rowLoop (env : ThreadEnv) : List ScanResult → Nat → Writer → List (List String) → Nat →
    LoopExit
  | [], _, w, file, n => { fatal := none, writer := w, file := file, processed := n }
  | sc :: rest, i, w, file, n =>
    let result := toRecord sc.raw
    let w := (w.Write result (env.writeErr i)).1
    let n := n + 1
    if i % 1000 == 0 then
      let (w, file) := w.Flush file (env.flushErr i)
      match w.Error with
      | some e => { fatal := some e, writer := w, file := file, processed := n }
      | none => rowLoop env rest (i + 1) w file n
    else
      rowLoop env rest (i + 1) w file n

/-- How a call of `WriteCSV` ends. -/
inductive Outcome where
  | returned (err : Option String)
  | fatal (msg : String)
  | crash (msg : String)
  | blocked
  deriving DecidableEq, Repr

/-- The observable result of a call of `WriteCSV`. -/
structure Run where
  outcome : Outcome
  world : World
  writer : Writer
  query : Option Query
  rowsOpen : Bool
  processed : Nat
  deriving DecidableEq, Repr

/-- `ExportThread.WriteCSV` (`main.go:105-205`) for the exporter `t` with writer
`w`, on a server whose dialector is called `name` and whose version string is `v`.
Deferred calls run on return and on panic, not after `log.Fatal`; an exporter
that finds `mtx` locked waits. -/
def WriteCSV (name v : String) (env : ThreadEnv) (t : ExportThread) (w : Writer) (σ : World) :
    Run :=
  let done (σ : World) : World := { σ with wg := σ.wg - 1 }
  match isOldVersionSqlserver name v with
  | .error (.fatal m) =>
    { outcome := .fatal m, world := σ, writer := w, query := none, rowsOpen := false,
      processed := 0 }
  | .error (.crash m) =>
    { outcome := .crash m, world := done σ, writer := w, query := none, rowsOpen := false,
      processed := 0 }
  | .ok old =>
    let q := tableQuery σ.g.tableName old t
    match env.rowsErr with
    | some e =>
      { outcome := .returned (some e), world := done σ, writer := w, query := some q,
        rowsOpen := false, processed := 0 }
    | none =>
      match headerSection env w σ with
      | (.blocked, w, σ) =>
        { outcome := .blocked, world := σ, writer := w, query := some q, rowsOpen := true,
          processed := 0 }
      | (.failed e, w, σ) =>
        { outcome := .returned (some e), world := done σ, writer := w, query := some q,
          rowsOpen := true, processed := 0 }
      | (.passed, w, σ) =>
        match env.columns with
        | .error e =>
          { outcome := .returned (some e), world := done σ, writer := w, query := some q,
            rowsOpen := false, processed := 0 }
        | .ok _ =>
          let l := rowLoop env env.scans 1 w σ.file 0
          match l.fatal with
          | some m =>
            { outcome := .fatal m, world := { σ with file := l.file }, writer := l.writer,
              query := some q, rowsOpen := true, processed := l.processed }
          | none =>
            let (w, file) := l.writer.Flush l.file env.finalFlushErr
            { outcome := .returned none, world := done { σ with file := file }, writer := w,
              query := some q, rowsOpen := false, processed := l.processed }

/-- The header sections of several exporters run one after the other, in list
order, each exporter with the fresh writer of `NewExportThread`. -/
def headerSections : List ThreadEnv → World → World × List SectionExit
  | [], σ => (σ, [])
  | env :: rest, σ =>
    let r := headerSection env Writer.new σ
    let rs := headerSections rest r.2.2
    (rs.1, r.1 :: rs.2)

/-! ## The bytes of the rows on their way to the shared file

`Writer` above keeps whole records; the definitions below follow the same calls
down to the bytes: what `csv.Writer.Write` hands to its `bufio.Writer`, when that
buffer of 4096 bytes writes to the file, and in which orders the writes of several
exporters can reach the one file. Every write to the file is taken to succeed. -/

/-- UTF-8 bytes of a character. -/
def utf8Bytes (c : Char) : List Nat :=
  let v := c.toNat
  if v < 128 then [v]
  else if v < 2048 then [192 + v / 64, 128 + v % 64]
  else if v < 65536 then [224 + v / 4096, 128 + v / 64 % 64, 128 + v % 64]
  else [240 + v / 262144, 128 + v / 4096 % 64, 128 + v / 64 % 64, 128 + v % 64]

/-- The bytes of a Go string. -/
def bytesOf (s : List Char) : List Nat :=
  (s.map utf8Bytes).flatten

/-- The size `bufio.NewWriter` gives the buffer of a `csv.Writer`. -/
def defaultBufSize : Nat := 4096

/-- A call `csv.Writer.Write` makes on its buffered writer: `WriteString`, or
`WriteByte` (also reached through `WriteRune` for the comma). -/
inductive Piece where
  | str (s : List Nat)
  | byte (b : Nat)
  deriving DecidableEq, Repr

/-- `bufio.Writer.WriteString` and `WriteByte` on a buffer holding `buf`: the new
buffer and the writes made to the file.  A string that fits is only copied; one
that does not fit fills the buffer, which is written out, or goes to the file in
one piece when the buffer is empty; a byte first writes out a full buffer. -/
def bufWrite (buf : List Nat) : Piece → List Nat × List (List Nat)
  | .byte b =>
    if defaultBufSize ≤ buf.length then ([b], [buf]) else (buf ++ [b], [])
  | .str s =>
    if s.length ≤ defaultBufSize - buf.length then (buf ++ s, [])
    else if buf.isEmpty then ([], [s])
    else
      let n := defaultBufSize - buf.length
      let rest := s.drop n
      if rest.length ≤ defaultBufSize then (rest, [buf ++ s.take n])
      else ([], [buf ++ s.take n, rest])

/-- `bufio.Writer.Flush`: a non-empty buffer is written to the file. -/
def bufFlush (buf : List Nat) : List Nat × List (List Nat) :=
  if buf.isEmpty then ([], []) else ([], [buf])

/-- `csv.Writer.fieldNeedsQuotes` for the comma as delimiter. -/
def fieldNeedsQuotes (field : String) : Bool :=
  if field == "" then false
  else if field == "\\." then true
  else if field.data.any (fun c => c == '\n' || c == '\r' || c == '"' || c == ',') then true
  else
    match field.data.head? with
    | some r1 => isSpace r1
    | none => false

/-- The body of a quoted field: the text between special characters is written
as a string, a quote is doubled, `\r` and `\n` are written as they are.  `seg` is
the text read since the last special character. -/
def quotedPieces : List Char → List Char → List Piece
  | [], seg => [.str (bytesOf seg)]
  | c :: cs, seg =>
    if c == '"' then .str (bytesOf seg) :: .str [34, 34] :: quotedPieces cs []
    else if c == '\r' then .str (bytesOf seg) :: .byte 13 :: quotedPieces cs []
    else if c == '\n' then .str (bytesOf seg) :: .byte 10 :: quotedPieces cs []
    else quotedPieces cs (seg ++ [c])

/-- The calls of `csv.Writer.Write` for the fields of a record, `n` fields
having been written before. -/
def fieldPieces : List String → Nat → List Piece
  | [], _ => []
  | field :: rest, n =>
    (if n > 0 then [.byte 44] else []) ++
    (if !fieldNeedsQuotes field then [.str (bytesOf field.data)]
     else [.byte 34] ++ quotedPieces field.data [] ++ [.byte 34]) ++
    fieldPieces rest (n + 1)

/-- The calls of `csv.Writer.Write(record)`: the fields, then the line feed. -/
def recordPieces (record : List String) : List Piece :=
  fieldPieces record 0 ++ [.byte 10]

/-- The bytes a piece carries. -/
def Piece.bytes : Piece → List Nat
  | .str s => s
  | .byte b => [b]

/-- The line of a record in the CSV file. -/
def encodeRecord (record : List String) : List Nat :=
  ((recordPieces record).map Piece.bytes).flatten

/-- A sequence of calls on the buffered writer: the final buffer and the writes
made to the file, in order. -/
def bufWrites : List Nat → List Piece → List Nat × List (List Nat)
  | buf, [] => (buf, [])
  | buf, p :: ps =>
    let r := bufWrite buf p
    let rs := bufWrites r.1 ps
    (rs.1, r.2 ++ rs.2)

/-- The loop of `main.go:180-198` seen from the file: at counter `i`, with the
buffer `buf`, the writes the remaining rows cause, and the buffer left. -/
def chunkLoop : List ScanResult → Nat → List Nat → List Nat × List (List Nat)
  | [], _, buf => (buf, [])
  | sc :: rest, i, buf =>
    let r := bufWrites buf (recordPieces (toRecord sc.raw))
    if i % 1000 == 0 then
      let f := bufFlush r.1
      let rs := chunkLoop rest (i + 1) f.1
      (rs.1, r.2 ++ f.2 ++ rs.2)
    else
      let rs := chunkLoop rest (i + 1) r.1
      (rs.1, r.2 ++ rs.2)

/-- All writes one exporter makes to the file for its rows, the deferred final
`Flush` of `main.go:200-202` included. -/
def exporterWrites (scans : List ScanResult) : List (List Nat) :=
  let r := chunkLoop scans 1 []
  r.2 ++ (bufFlush r.1).2

/-- The exporters run concurrently: a schedule names, step by step, the exporter
whose next write reaches the file.  The result is the file and the writes still
to come. -/
def runSchedule : List Nat → List (List (List Nat)) → List Nat → List Nat × List (List (List Nat))
  | [], queues, file => (file, queues)
  | k :: rest, queues, file =>
    match queues.get? k with
    | some (chunk :: more) => runSchedule rest (queues.set k more) (file ++ chunk)
    | _ => runSchedule rest queues file

/-- All ways to merge two sequences, the order inside each one kept. -/
def merges {α : Type} : List α → List α → List (List α)
  | [], ys => [ys]
  | x :: xs, [] => [x :: xs]
  | x :: xs, y :: ys =>
    (merges xs (y :: ys)).map (x :: ·) ++ (merges (x :: xs) ys).map (y :: ·)

/-- All ways to merge several sequences, the order inside each one kept. -/
def interleavings {α : Type} : List (List α) → List (List α)
  | [] => [[]]
  | q :: qs => ((interleavings qs).map (merges q)).flatten

/-- What the exporters would write if every record went to the file as one
write: for each exporter the lines of its rows. -/
def recordLines (rows : List (List ScanResult)) : List (List (List Nat)) :=
  rows.map (fun scans => scans.map (fun sc => encodeRecord (toRecord sc.raw)))

/-- The files in which every record is one unbroken line: the records of the
exporters in any order that keeps each exporter's own order, each record as its
whole line. -/
def wholeRecordFiles (rows : List (List ScanResult)) : List (List Nat) :=
  (interleavings (recordLines rows)).map List.flatten

/-- A string of `n` letters `a`. -/
def lettersA (n : Nat) : String :=
  String.mk (List.replicate n 'a')

/-- The rows of an exporter of two rows with one column: `n` letters `a`, then
ten letters `b`. -/
def longRows (n : Nat) : List ScanResult :=
  [⟨[some (lettersA n)], none⟩, ⟨[some "bbbbbbbbbb"], none⟩]

/-- The rows of an exporter of one row with one column: the letter `c`. -/
def shortRows : List ScanResult :=
  [⟨[some "c"], none⟩]

/-! ## Predicates used in the statements -/

/-- The globals `checkCmdParams` returns when it returns. -/
def checkedGlobals (g : Globals) (totalCount : Int) : Globals :=
  { g with
    sharding := max 1 (min g.sharding totalCount)
    csvFileName := if isBlank g.csvFileName then g.tableName ++ ".csv" else g.csvFileName }

/-- The list `rs` cuts the offsets from `a` to `b` into consecutive non-empty
ranges. -/
def Tiles : Int → List (Int × Int) → Int → Prop
  | a, [], b => b + 1 = a
  | a, r :: rs, b => r.1 = a ∧ r.1 ≤ r.2 ∧ Tiles (r.2 + 1) rs b

/-- Membership of an offset in an inclusive range. -/
def inRange (x : Int) (r : Int × Int) : Bool :=
  decide (r.1 ≤ x ∧ x ≤ r.2)

/-- The ranges `rs` partition the row offsets `0 .. totalCount - 1`: there is at
least one range, the first starts at 0, every range has `min ≤ max`, each next
range starts right after the previous one, the last ends at `totalCount - 1`,
every offset of the interval lies in exactly one range and no range holds any
other offset. -/
def PartitionOf (totalCount : Int) (rs : List (Int × Int)) : Prop :=
  rs ≠ [] ∧
  (∃ r, rs.head? = some r ∧ r.1 = 0) ∧
  (∀ r ∈ rs, r.1 ≤ r.2) ∧
  List.Chain' (fun p q => q.1 = p.2 + 1) rs ∧
  (∃ r, rs.getLast? = some r ∧ r.2 = totalCount - 1) ∧
  (∀ x, 0 ≤ x → x ≤ totalCount - 1 → (rs.filter (inRange x)).length = 1) ∧
  (∀ x, ∀ r ∈ rs, inRange x r = true → 0 ≤ x ∧ x ≤ totalCount - 1)

/-- The texts an atom accepts: one character of the class, or a non-empty run of
characters of the class. -/
def Atom.Accepts : Atom → List Char → Prop
  | .one p, m => ∃ c, m = [c] ∧ p c = true
  | .many1 p, m => m ≠ [] ∧ ∀ c ∈ m, p c = true

/-- The text `s` contains a match of the sequence of atoms: some substring splits
into pieces accepted by the atoms one by one. -/
def Occurs (atoms : List Atom) (s : List Char) : Prop :=
  ∃ pre pieces post, s = pre ++ pieces.flatten ++ post ∧ List.Forall₂ Atom.Accepts atoms pieces

/-- The pattern as the specification words it, `<major>.<minor>.<build>.<revision>`:
four runs of digits separated by literal dots, the first run captured. -/
def dottedVersionRe : Regexp :=
  { atoms := [.many1 isDigit, .one isDot, .many1 isDigit, .one isDot,
              .many1 isDigit, .one isDot, .many1 isDigit],
    group := 0 }

/-- The probe as the specification words it: pagination is unsupported exactly
when the dialect is sqlserver and the major version of the first
`<major>.<minor>.<build>.<revision>` occurrence is at most 10. -/
def specOldVersion (name v : String) : Bool :=
  name == "sqlserver" &&
    match (dottedVersionRe.FindStringSubmatch v).get? 1 with
    | none => false
    | some a => decide ((Atoi a).1 ≤ 10)

/-- An exporter whose calls all succeed on the given columns and rows. -/
def quietEnv (columns : List String) (scans : List ScanResult) : ThreadEnv :=
  { rowsErr := none, columns := .ok columns, scans := scans, nextErr := none,
    headWriteErr := none, headFlushErr := none, writeErr := fun _ => none,
    flushErr := fun _ => none, finalFlushErr := none }

/-- The shared state when the exporters start: the globals given, the mutex free,
the file empty, the wait group at the number of exporters. -/
def startWorld (g : Globals) : World :=
  { g := g, mtxLocked := false, file := [], wg := g.sharding }

/-- Some write up to row `j`, or some periodic flush up to row `j`, raised an
error, or the writer already held the error `e0` before the first row. -/
def faultUpTo (env : ThreadEnv) (e0 : Option String) (j : Nat) : Prop :=
  e0 ≠ none ∨
    ∃ i, 1 ≤ i ∧ i ≤ j ∧ (env.writeErr i ≠ none ∨ (i % 1000 = 0 ∧ env.flushErr i ≠ none))

/-- Some periodic check, made after a row whose number is a multiple of 1000,
finds the writer holding an error. -/
def checkFails (env : ThreadEnv) (e0 : Option String) : Prop :=
  ∃ j, 1 ≤ j ∧ j ≤ env.scans.length ∧ j % 1000 = 0 ∧ faultUpTo env e0 j

/-- The cursor is opened, the column names are read and the header, when this
exporter writes it, is accepted by the writer. -/
def setupOk (env : ThreadEnv) (σ : World) : Prop :=
  env.rowsErr = none ∧ (∃ columns, env.columns = .ok columns) ∧
    (σ.g.withHead = true → env.headWriteErr = none)

/-! # Theorems -/

/-! ## `checkCmdParams` -/

/-- With a non-zero row count `checkCmdParams` either stops on a blank
parameter or returns the globals with the shard count clamped. -/
theorem checkCmdParams_eq (g : Globals) {totalCount : Int} (hT : 1 ≤ totalCount) :
    checkCmdParams g totalCount =
      if isBlank g.tableName then .error (.fatal "tableName is required")
      else if isBlank g.dialect then .error (.fatal "dialect is required")
      else if isBlank g.dsn then .error (.fatal "dsn is required")
      else .ok (checkedGlobals g totalCount) := by
  have h0 : (totalCount == 0) = false := by
    rw [beq_eq_false_iff_ne]; omega
  unfold checkCmdParams checkedGlobals
  rw [h0]
  by_cases hs : g.sharding ≤ 0
  · have h1 : ¬ (1 : Int) > totalCount := by omega
    have h2 : max 1 (min g.sharding totalCount) = 1 := by omega
    simp only [hs, h1, h2, if_true, if_false, Bool.false_eq_true]
    split_ifs <;> rfl
  · by_cases ht : g.sharding > totalCount
    · have h2 : max 1 (min g.sharding totalCount) = totalCount := by omega
      simp only [hs, ht, h2, if_true, if_false, Bool.false_eq_true]
      split_ifs <;> rfl
    · have h2 : max 1 (min g.sharding totalCount) = g.sharding := by omega
      simp only [hs, ht, h2, if_true, if_false, Bool.false_eq_true]
      split_ifs <;> rfl

/-- When `checkCmdParams` returns, it returns `checkedGlobals`. -/
theorem checkCmdParams_ok {g g' : Globals} {totalCount : Int} (hT : 1 ≤ totalCount)
    (h : checkCmdParams g totalCount = .ok g') : g' = checkedGlobals g totalCount := by
  rw [checkCmdParams_eq g hT] at h
  split_ifs at h
  exact (Except.ok.inj h).symm

/-- With the three required parameters present `checkCmdParams` returns. -/
theorem checkCmdParams_returns (g : Globals) {totalCount : Int} (hT : 1 ≤ totalCount)
    (h1 : isBlank g.tableName = false) (h2 : isBlank g.dialect = false)
    (h3 : isBlank g.dsn = false) :
    checkCmdParams g totalCount = .ok (checkedGlobals g totalCount) := by
  rw [checkCmdParams_eq g hT, h1, h2, h3]
  rfl

/-! ## Consecutive ranges -/

theorem Tiles.le : ∀ {rs : List (Int × Int)} {a b : Int}, Tiles a rs b → a ≤ b + 1
  | [], a, b, h => by
    simp only [Tiles] at h; omega
  | r :: rs, a, b, h => by
    obtain ⟨h1, h2, h3⟩ := h
    have := Tiles.le h3
    omega

theorem Tiles.filter_below : ∀ {rs : List (Int × Int)} {a b : Int}, Tiles a rs b →
    ∀ x, x < a → rs.filter (inRange x) = []
  | [], _, _, _, _, _ => rfl
  | r :: rs, a, b, h, x, hx => by
    obtain ⟨h1, h2, h3⟩ := h
    have ih := Tiles.filter_below h3 x (by omega)
    have hr : inRange x r = false := by
      simp only [inRange, decide_eq_false_iff_not]; omega
    simp [List.filter_cons, hr, ih]

theorem Tiles.filter_length : ∀ {rs : List (Int × Int)} {a b : Int}, Tiles a rs b →
    ∀ x, a ≤ x → x ≤ b → (rs.filter (inRange x)).length = 1
  | [], a, b, h, x, h1, h2 => by
    simp only [Tiles] at h; omega
  | r :: rs, a, b, h, x, hx1, hx2 => by
    obtain ⟨h1, h2, h3⟩ := h
    by_cases hx : x ≤ r.2
    · have hr : inRange x r = true := by
        simp only [inRange, decide_eq_true_eq]; omega
      have := Tiles.filter_below h3 x (by omega)
      simp [List.filter_cons, hr, this]
    · have hr : inRange x r = false := by
        simp only [inRange, decide_eq_false_iff_not]; omega
      have := Tiles.filter_length h3 x (by omega) hx2
      simp [List.filter_cons, hr, this]

theorem Tiles.mem_bounds : ∀ {rs : List (Int × Int)} {a b : Int}, Tiles a rs b →
    ∀ r ∈ rs, a ≤ r.1 ∧ r.1 ≤ r.2 ∧ r.2 ≤ b
  | [], _, _, _, r, hr => by simp at hr
  | q :: rs, a, b, h, r, hr => by
    obtain ⟨h1, h2, h3⟩ := h
    have hle := Tiles.le h3
    rcases List.mem_cons.mp hr with rfl | hr
    · omega
    · have := Tiles.mem_bounds h3 r hr
      omega

theorem Tiles.head : ∀ {rs : List (Int × Int)} {a b : Int}, Tiles a rs b → rs ≠ [] →
    ∃ r, rs.head? = some r ∧ r.1 = a
  | [], _, _, _, hne => absurd rfl hne
  | r :: _, _, _, h, _ => ⟨r, rfl, h.1⟩

theorem Tiles.last : ∀ {rs : List (Int × Int)} {a b : Int}, Tiles a rs b → rs ≠ [] →
    ∃ r, rs.getLast? = some r ∧ r.2 = b
  | [], _, _, _, hne => absurd rfl hne
  | [r], a, b, h, _ => by
    obtain ⟨h1, h2, h3⟩ := h
    simp only [Tiles] at h3
    exact ⟨r, rfl, by omega⟩
  | r :: q :: rs, a, b, h, _ => by
    obtain ⟨r', hr', hb⟩ := Tiles.last h.2.2 (List.cons_ne_nil q rs)
    exact ⟨r', by rw [List.getLast?_cons_cons]; exact hr', hb⟩

theorem Tiles.chain : ∀ {rs : List (Int × Int)} {a b : Int}, Tiles a rs b →
    List.Chain' (fun p q => q.1 = p.2 + 1) rs
  | [], _, _, _ => List.chain'_nil
  | [r], _, _, _ => List.chain'_singleton r
  | r :: q :: rs, a, b, h => by
    have hq := h.2.2
    exact List.chain'_cons.mpr ⟨hq.1, Tiles.chain hq⟩

/-! ## The planner loop -/

/-- The loop runs once per index below `sharding`: its result is the list of
the loop bodies, and the iteration bound is never what stops it. -/
theorem shardLoop_eq_map (totalCount sharding shardingSize : Int) :
    ∀ (fuel : Nat) (i : Int), i + fuel ≤ sharding →
      shardLoop totalCount sharding shardingSize fuel i =
        (List.range fuel).map (fun k : Nat => shardAt totalCount sharding shardingSize (i + k))
  | 0, _, _ => rfl
  | fuel + 1, i, hi => by
    have hlt : i < sharding := by push_cast at hi; omega
    have ih := shardLoop_eq_map totalCount sharding shardingSize fuel (i + 1)
      (by push_cast at hi; omega)
    rw [shardLoop, if_pos hlt, ih, List.range_succ_eq_map, List.map_cons, List.map_map]
    congr 1
    · simp
    · apply List.map_congr_left
      intro k _
      simp only [Function.comp, Nat.cast_succ]
      congr 1
      ring

/-- Once the index has reached `sharding` the loop stops, whatever bound is left. -/
theorem shardLoop_done (totalCount sharding shardingSize : Int) (fuel : Nat) (i : Int)
    (hi : sharding ≤ i) : shardLoop totalCount sharding shardingSize fuel i = [] := by
  cases fuel with
  | zero => rfl
  | succ n => rw [shardLoop, if_neg (by omega)]

/-- Any iteration bound of at least `sharding` gives the result of `planShards`. -/
theorem shardLoop_fuel (totalCount sharding shardingSize : Int) :
    ∀ (extra fuel : Nat) (i : Int), i + fuel = sharding →
      shardLoop totalCount sharding shardingSize (fuel + extra) i =
        shardLoop totalCount sharding shardingSize fuel i
  | extra, 0, i, hi => by
    rw [shardLoop_done _ _ _ _ _ (by simpa using hi.ge)]
    rfl
  | extra, fuel + 1, i, hi => by
    have hlt : i < sharding := by push_cast at hi; omega
    have ih := shardLoop_fuel totalCount sharding shardingSize extra fuel (i + 1)
      (by push_cast at hi; omega)
    rw [Nat.add_right_comm]
    simp only [shardLoop, if_pos hlt]
    rw [ih]

theorem shardLoop_tiles (totalCount sharding shardingSize : Int) (hsz : 1 ≤ shardingSize)
    (hle : sharding * shardingSize ≤ totalCount) :
    ∀ (fuel : Nat) (i : Int), i + (fuel + 1 : Nat) = sharding →
      Tiles (i * shardingSize)
        ((shardLoop totalCount sharding shardingSize (fuel + 1) i).map (fun t => (t.min, t.max)))
        (totalCount - 1)
  | 0, i, hi => by
    have hlt : i < sharding := by omega
    have hlast : (i == sharding - 1) = true := by
      rw [beq_iff_eq]; omega
    have hmul : i * shardingSize = sharding * shardingSize - shardingSize := by
      have : i = sharding - 1 := by omega
      rw [this]; ring
    simp only [shardLoop, shardAt, hlt, hlast, if_true, NewExportThread, List.map, Tiles]
    refine ⟨?_, ?_, ?_⟩ <;> first | trivial | rfl | (dsimp only; omega)
  | fuel + 1, i, hi => by
    have hlt : i < sharding := by omega
    have hlast : (i == sharding - 1) = false := by
      rw [beq_eq_false_iff_ne]; omega
    have ih := shardLoop_tiles totalCount sharding shardingSize hsz hle fuel (i + 1)
      (by push_cast at hi ⊢; omega)
    have hmul : (i + 1) * shardingSize = i * shardingSize + shardingSize - 1 + 1 := by ring
    rw [hmul] at ih
    rw [shardLoop]
    simp only [shardAt, hlt, hlast, if_true, NewExportThread, List.map_cons, Tiles,
      Bool.false_eq_true, if_false]
    exact ⟨trivial, by omega, ih⟩

/-- For a shard count between 1 and the row count the shard size is at least 1
and the shards do not exceed the rows. -/
theorem shardingSize_bounds {totalCount sharding : Int} (h1 : 1 ≤ sharding)
    (h2 : sharding ≤ totalCount) :
    totalCount.tdiv sharding = totalCount / sharding ∧ 1 ≤ totalCount / sharding ∧
      sharding * (totalCount / sharding) ≤ totalCount := by
  refine ⟨Int.tdiv_eq_ediv (by omega) (by omega), ?_, ?_⟩
  · exact (Int.le_ediv_iff_mul_le (by omega)).mpr (by omega)
  · have := Int.ediv_mul_le totalCount (b := sharding) (by omega)
    rw [Int.mul_comm]
    exact this

/-- The ranges of the planner tile `[0, totalCount - 1]`. -/
theorem planRanges_tiles {totalCount sharding : Int} (h1 : 1 ≤ sharding)
    (h2 : sharding ≤ totalCount) :
    Tiles 0 (planRanges totalCount sharding) (totalCount - 1) := by
  obtain ⟨hd, hsz, hle⟩ := shardingSize_bounds h1 h2
  obtain ⟨n, hn⟩ : ∃ n : Nat, sharding.toNat = n + 1 := ⟨sharding.toNat - 1, by omega⟩
  have := shardLoop_tiles totalCount sharding (totalCount / sharding) hsz hle n 0 (by omega)
  rw [Int.zero_mul] at this
  unfold planRanges planShards
  rw [hd, hn]
  exact this

theorem planRanges_length {totalCount sharding : Int} :
    (planRanges totalCount sharding).length = sharding.toNat := by
  unfold planRanges planShards
  by_cases h : 0 ≤ sharding
  · rw [shardLoop_eq_map _ _ _ _ _ (by omega)]
    simp
  · have h0 : sharding.toNat = 0 := by omega
    rw [h0]
    rfl

theorem planRanges_getElem? {totalCount sharding : Int} (i : Nat) (hi : (i : Int) < sharding) :
    (planRanges totalCount sharding)[i]? =
      some (i * totalCount.tdiv sharding,
        if (i : Int) = sharding - 1 then totalCount - 1
        else i * totalCount.tdiv sharding + totalCount.tdiv sharding - 1) := by
  unfold planRanges planShards
  rw [shardLoop_eq_map _ _ _ _ _ (by omega)]
  have hlt : i < sharding.toNat := by omega
  simp only [List.map_map, List.getElem?_map, List.getElem?_range hlt, Option.map_some',
    Function.comp, shardAt, NewExportThread, Int.zero_add, beq_iff_eq]

/-- Every value the loop body computes for an index below `sharding` lies between
0 and `totalCount`, so no 64-bit operation wraps around. -/
theorem shardAt_in_bounds {totalCount sharding i : Int} (h1 : 1 ≤ sharding)
    (h2 : sharding ≤ totalCount) (hi0 : 0 ≤ i) (hi : i < sharding) :
    0 ≤ i * totalCount.tdiv sharding ∧
      i * totalCount.tdiv sharding + totalCount.tdiv sharding ≤ totalCount := by
  obtain ⟨hd, hsz, hle⟩ := shardingSize_bounds h1 h2
  rw [hd]
  have hmono : (i + 1) * (totalCount / sharding) ≤ sharding * (totalCount / sharding) :=
    Int.mul_le_mul_of_nonneg_right (by omega) (by omega)
  have hexp : (i + 1) * (totalCount / sharding) =
      i * (totalCount / sharding) + totalCount / sharding := by ring
  exact ⟨Int.mul_nonneg hi0 (by omega), by omega⟩

theorem Tiles.partitionOf {totalCount : Int} {rs : List (Int × Int)}
    (h : Tiles 0 rs (totalCount - 1)) (hne : rs ≠ []) : PartitionOf totalCount rs := by
  refine ⟨hne, h.head hne, fun r hr => (h.mem_bounds r hr).2.1, h.chain, h.last hne,
    fun x h0 h1 => h.filter_length x h0 h1, ?_⟩
  intro x r hr hx
  have hb := h.mem_bounds r hr
  simp only [inRange, decide_eq_true_eq] at hx
  omega

/-! ## Claims on the partition planner -/

/-- C1. For a row count of at least 1 and any requested shard count (so also every
count of at least 1), the ranges that the loop of `main` computes from the shard
count left by `checkCmdParams` partition the offsets `0 .. totalCount - 1` into
non-empty consecutive ranges: the first starts at 0, each has `min ≤ max`, each
next one starts at the previous `max + 1`, the last ends at `totalCount - 1`, and
every offset lies in exactly one range. -/
theorem planner_partition (g g' : Globals) (totalCount : Int) (hT : 1 ≤ totalCount)
    (hc : checkCmdParams g totalCount = .ok g') :
    PartitionOf totalCount (planRanges totalCount g'.sharding) := by
  have hg := checkCmdParams_ok hT hc
  have hs : g'.sharding = max 1 (min g.sharding totalCount) := by rw [hg]; rfl
  have h1 : 1 ≤ g'.sharding := by omega
  have h2 : g'.sharding ≤ totalCount := by omega
  refine (planRanges_tiles h1 h2).partitionOf ?_
  intro h
  have := congrArg List.length h
  rw [planRanges_length] at this
  simp at this
  omega

/-- Instance of C1: 100 rows, 3 requested shards. -/
theorem planner_partition_witness :
    (1 : Int) ≤ 100 ∧
    checkCmdParams ⟨3, "t", "", "mysql", "dsn", true⟩ 100 =
      .ok ⟨3, "t", "t.csv", "mysql", "dsn", true⟩ ∧
    PartitionOf 100 (planRanges 100 3) :=
  ⟨by decide, by decide,
    planner_partition ⟨3, "t", "", "mysql", "dsn", true⟩ ⟨3, "t", "t.csv", "mysql", "dsn", true⟩
      100 (by decide) (by decide)⟩

/-- C2. For `1 ≤ shardCount` (so also for `1 ≤ shardCount ≤ totalCount`) and
`totalCount ≥ 1` the planner uses the shard size
`totalCount / shardCount` (integer division), gives partition `i` the range
`[i * shardSize, (i + 1) * shardSize - 1]` for every `i < shardCount - 1` and the
range `[(shardCount - 1) * shardSize, totalCount - 1]` to the last partition; for
100 rows and 3 shards the ranges are `[0,32]`, `[33,65]`, `[66,99]`. -/
theorem planner_formula (totalCount shardCount : Int) (hT : 1 ≤ totalCount)
    (h1 : 1 ≤ shardCount) :
    (planRanges totalCount shardCount).length = shardCount.toNat ∧
    (∀ i : Nat, (i : Int) < shardCount - 1 →
      (planRanges totalCount shardCount)[i]? =
        some (i * (totalCount / shardCount), (i + 1) * (totalCount / shardCount) - 1)) ∧
    (planRanges totalCount shardCount)[shardCount.toNat - 1]? =
      some ((shardCount - 1) * (totalCount / shardCount), totalCount - 1) ∧
    planRanges 100 3 = [(0, 32), (33, 65), (66, 99)] := by
  have hd : totalCount.tdiv shardCount = totalCount / shardCount :=
    Int.tdiv_eq_ediv (by omega) (by omega)
  refine ⟨planRanges_length, ?_, ?_, by decide⟩
  · intro i hi
    rw [planRanges_getElem? i (by omega), hd, if_neg (by omega)]
    congr 2
    ring
  · have hc : ((shardCount.toNat - 1 : Nat) : Int) = shardCount - 1 := by omega
    rw [planRanges_getElem? _ (by omega), hd, hc, if_pos rfl]

/-- Instance of C2: 100 rows, 3 shards. -/
theorem planner_formula_witness :
    (1 : Int) ≤ 100 ∧ (1 : Int) ≤ 3 ∧
    (planRanges 100 3)[1]? =
      some ((1 : Nat) * ((100 : Int) / 3), ((1 : Nat) + 1) * ((100 : Int) / 3) - 1) :=
  ⟨by decide, by decide, (planner_formula 100 3 (by decide) (by decide)).2.1 1 (by decide)⟩

/-- C3. For a row count of at least 1 and any requested shard count, negative and
zero included, `checkCmdParams` leaves the shard count
`max 1 (min shardCount totalCount)` (and it does return when the three required
parameters are present); hence for `shardCount ≥ totalCount` the planner makes
exactly `totalCount` partitions, partition `i` being the single row `[i, i]`; for 7
rows and 10 requested shards these are 7 partitions of one row each. -/
theorem clamp_single_rows (g : Globals) (totalCount : Int) (hT : 1 ≤ totalCount) :
    (∀ g', checkCmdParams g totalCount = .ok g' →
      g'.sharding = max 1 (min g.sharding totalCount)) ∧
    (isBlank g.tableName = false → isBlank g.dialect = false → isBlank g.dsn = false →
      ∃ g', checkCmdParams g totalCount = .ok g') ∧
    (totalCount ≤ g.sharding →
      planRanges totalCount (max 1 (min g.sharding totalCount)) =
        (List.range totalCount.toNat).map (fun i : Nat => ((i : Int), (i : Int)))) ∧
    planRanges 7 (max 1 (min 10 7)) = [(0, 0), (1, 1), (2, 2), (3, 3), (4, 4), (5, 5), (6, 6)] := by
  refine ⟨?_, ?_, ?_, by decide⟩
  · intro g' hc
    rw [checkCmdParams_ok hT hc]
    rfl
  · intro h1 h2 h3
    exact ⟨_, checkCmdParams_returns g hT h1 h2 h3⟩
  · intro hs
    have hm : max 1 (min g.sharding totalCount) = totalCount := by omega
    rw [hm]
    have hd : totalCount.tdiv totalCount = 1 := by
      rw [Int.tdiv_eq_ediv (by omega) (by omega)]
      exact Int.ediv_self (by omega)
    apply List.ext_getElem?
    intro i
    by_cases hi : (i : Int) < totalCount
    · have hlt : i < totalCount.toNat := by omega
      rw [planRanges_getElem? i hi, hd, List.getElem?_map, List.getElem?_range hlt]
      simp only [Option.map_some', Int.mul_one]
      split_ifs with h
      · rw [h]
      · congr 2
        omega
    · have hge : totalCount.toNat ≤ i := by omega
      rw [List.getElem?_eq_none (by rw [planRanges_length]; exact hge),
        List.getElem?_eq_none (by simpa using hge)]

/-- Instance of C3: 7 rows, 10 requested shards. -/
theorem clamp_single_rows_witness :
    (1 : Int) ≤ 7 ∧
    checkCmdParams ⟨10, "t", "", "mysql", "dsn", true⟩ 7 =
      .ok ⟨7, "t", "t.csv", "mysql", "dsn", true⟩ ∧
    (⟨7, "t", "t.csv", "mysql", "dsn", true⟩ : Globals).sharding = max 1 (min 10 7) :=
  ⟨by decide, by decide,
    (clamp_single_rows ⟨10, "t", "", "mysql", "dsn", true⟩ 7 (by decide)).1 _ (by decide)⟩

/-! ## Claims on the degraded mode -/

/-- A dialector for which the probe answers `true` is the SQL Server one. -/
theorem isOld_true_name {name v : String} (h : isOldVersionSqlserver name v = .ok true) :
    name = "sqlserver" := by
  unfold isOldVersionSqlserver at h
  by_cases hn : (name == "sqlserver") = true
  · exact beq_iff_eq.mp hn
  · rw [if_neg hn] at h
    exact absurd (Except.ok.inj h) (by decide)

/-- The dialector is built from a dialect string of the same name. -/
theorem getDialector_name {dialect : String} {d : Dialector}
    (h : getDialector dialect = .ok d) : dialect = d.Name := by
  unfold getDialector at h
  split_ifs at h with h1 h2 h3 h4
  · rw [← Except.ok.inj h]; exact beq_iff_eq.mp h1
  · rw [← Except.ok.inj h]; exact beq_iff_eq.mp h2
  · rw [← Except.ok.inj h]; exact beq_iff_eq.mp h3
  · rw [← Except.ok.inj h]; exact beq_iff_eq.mp h4

/-- With one shard the planner makes the single exporter `[0, totalCount - 1]`. -/
theorem planShards_one (totalCount : Int) :
    planShards totalCount 1 = [NewExportThread 0 (totalCount - 1) "thread-0"] := by
  unfold planShards
  have h : (1 : Int).toNat = 1 := rfl
  rw [h]
  simp only [shardLoop, shardAt, NewExportThread]
  simp
  rfl

/-- When `main` reaches the launch, the exporters are those of the planner, for one
shard if the probe answered `true` and for the clamped shard count otherwise. -/
theorem main_shards {g g' : Globals} {env : MainEnv} {shards : List ExportThread}
    (hT : 1 ≤ env.totalCount) (hm : main g env = .ok (g', shards)) :
    ∃ d old, getDialector g.dialect = .ok d ∧
      isOldVersionSqlserver d.Name env.version = .ok old ∧
      shards = planShards env.totalCount
        (if old then 1 else max 1 (min g.sharding env.totalCount)) := by
  cases hd : getDialector g.dialect with
  | error e => simp only [main, hd] at hm; exact absurd hm (by simp)
  | ok d =>
    cases hdb : env.openDBErr with
    | some e => simp only [main, hd, hdb] at hm; exact absurd hm (by simp)
    | none =>
      cases hc : checkCmdParams g env.totalCount with
      | error e => simp only [main, hd, hdb, hc] at hm; exact absurd hm (by simp)
      | ok g1 =>
        have hg1 : g1.sharding = max 1 (min g.sharding env.totalCount) := by
          rw [checkCmdParams_ok hT hc]; rfl
        cases hf : env.openFileErr with
        | some e => simp only [main, hd, hdb, hc, hf] at hm; exact absurd hm (by simp)
        | none =>
          cases ho : isOldVersionSqlserver d.Name env.version with
          | error e => simp only [main, hd, hdb, hc, hf, ho] at hm; exact absurd hm (by simp)
          | ok old =>
            simp only [main, hd, hdb, hc, hf, ho] at hm
            refine ⟨d, old, rfl, ho, ?_⟩
            cases old with
            | true =>
              simp only [if_true] at hm
              split_ifs at hm
              exact (congrArg Prod.snd (Except.ok.inj hm)).symm
            | false =>
              simp only [Bool.false_eq_true, if_false] at hm ⊢
              split_ifs at hm
              rw [← hg1]
              exact (congrArg Prod.snd (Except.ok.inj hm)).symm

/-- C4. For a row count of at least 1 and any requested shard count, when
`isOldVersionSqlserver` reports `true`, `main` sets the shard count to 1 and starts
exactly one exporter, for the range `[0, totalCount - 1]` (and `main` does get
that far when the database and the file open and the table name and the dsn are
present), and `WriteCSV` runs the table query without `Offset`/`Limit`. -/
theorem degraded_single_partition (g : Globals) (env : MainEnv) (d : Dialector)
    (hd : getDialector g.dialect = .ok d)
    (hold : isOldVersionSqlserver d.Name env.version = .ok true)
    (hT : 1 ≤ env.totalCount) :
    (∀ g' shards, main g env = .ok (g', shards) →
      g'.sharding = 1 ∧ shards = [NewExportThread 0 (env.totalCount - 1) "thread-0"]) ∧
    (env.openDBErr = none → env.openFileErr = none → isBlank g.tableName = false →
      isBlank g.dsn = false → ∃ r, main g env = .ok r) ∧
    (∀ (tenv : ThreadEnv) (t : ExportThread) (w : Writer) (σ : World),
      (WriteCSV d.Name env.version tenv t w σ).query =
        some { table := σ.g.tableName, offset := none, limit := none }) := by
  have hname : g.dialect = "sqlserver" := by
    rw [getDialector_name hd]; exact isOld_true_name hold
  have hblank : isBlank g.dialect = false := by rw [hname]; decide
  refine ⟨?_, ?_, ?_⟩
  · intro g' shards hm
    unfold main at hm
    rw [hd] at hm
    simp only [hold] at hm
    cases hdb : env.openDBErr with
    | some e => rw [hdb] at hm; exact absurd hm (by simp)
    | none =>
      rw [hdb] at hm
      cases hc : checkCmdParams g env.totalCount with
      | error e => rw [hc] at hm; exact absurd hm (by simp)
      | ok g1 =>
        rw [hc] at hm
        cases hf : env.openFileErr with
        | some e => rw [hf] at hm; exact absurd hm (by simp)
        | none =>
          rw [hf] at hm
          simp only [if_true] at hm
          have h1 : ¬ ((1 : Int) < 0) := by decide
          have h2 : ((1 : Int) == 0) = false := by decide
          simp only [h1, h2, if_false, Bool.false_eq_true] at hm
          have hm := Except.ok.inj hm
          have hg : g' = { g1 with sharding := 1 } := (congrArg Prod.fst hm).symm
          have hs : shards = planShards env.totalCount 1 := (congrArg Prod.snd hm).symm
          rw [hg, hs, planShards_one]
          exact ⟨rfl, rfl⟩
  · intro hdb hf h1 h3
    unfold main
    rw [hd]
    simp only [hold, hdb, hf, checkCmdParams_returns g hT h1 hblank h3]
    have h1 : ¬ ((1 : Int) < 0) := by decide
    have h2 : ((1 : Int) == 0) = false := by decide
    simp only [if_true, h1, h2, if_false, Bool.false_eq_true]
    exact ⟨_, rfl⟩
  · intro tenv t w σ
    unfold WriteCSV
    simp only [hold]
    cases tenv.rowsErr with
    | some e => rfl
    | none =>
      dsimp only
      split
      · rfl
      · rfl
      · split
        · rfl
        · split <;> rfl

/-- Instance of C4: SQL Server 2008 (version 10.0), 5 shards requested, 100 rows. -/
theorem degraded_single_partition_witness :
    getDialector "sqlserver" = .ok .sqlserver ∧
    isOldVersionSqlserver Dialector.sqlserver.Name "Microsoft SQL Server 2008 - 10.0.1600.22" =
      .ok true ∧
    (1 : Int) ≤ 100 ∧
    main ⟨5, "t", "", "sqlserver", "dsn", true⟩
        ⟨none, "Microsoft SQL Server 2008 - 10.0.1600.22", 100, none⟩ =
      .ok (⟨1, "t", "t.csv", "sqlserver", "dsn", true⟩, [NewExportThread 0 99 "thread-0"]) ∧
    ((1 : Int) = 1 ∧ [NewExportThread 0 99 "thread-0"] = [NewExportThread 0 (100 - 1) "thread-0"]) :=
  ⟨by decide, by decide, by decide, by decide,
    (degraded_single_partition ⟨5, "t", "", "sqlserver", "dsn", true⟩
      ⟨none, "Microsoft SQL Server 2008 - 10.0.1600.22", 100, none⟩ .sqlserver
      (by decide) (by decide) (by decide)).1 ⟨1, "t", "t.csv", "sqlserver", "dsn", true⟩
      [NewExportThread 0 99 "thread-0"] (by decide)⟩

/-! ## The pattern matcher -/

theorem tryLens_some {cont : List Char → Option (List (List Char))} {s : List Char} :
    ∀ {n : Nat} {r : List (List Char)}, tryLens cont s n = some r →
      ∃ k r', 1 ≤ k ∧ k ≤ n ∧ r = s.take k :: r' ∧ cont (s.drop k) = some r'
  | 0, r, h => by simp [tryLens] at h
  | n + 1, r, h => by
    unfold tryLens at h
    cases hc : cont (s.drop (n + 1)) with
    | some r' =>
      rw [hc] at h
      exact ⟨n + 1, r', by omega, le_refl _, (Option.some.inj h).symm, hc⟩
    | none =>
      rw [hc] at h
      obtain ⟨k, r', h1, h2, h3, h4⟩ := tryLens_some h
      exact ⟨k, r', h1, by omega, h3, h4⟩

theorem tryLens_complete {cont : List Char → Option (List (List Char))} {s : List Char} :
    ∀ {n k : Nat}, 1 ≤ k → k ≤ n → cont (s.drop k) ≠ none → tryLens cont s n ≠ none
  | 0, k, h1, h2, _ => by omega
  | n + 1, k, h1, h2, hc => by
    unfold tryLens
    cases hn : cont (s.drop (n + 1)) with
    | some r' => simp
    | none =>
      have hk : k ≤ n := by
        rcases Nat.lt_or_ge k (n + 1) with h | h
        · omega
        · have : k = n + 1 := by omega
          rw [this] at hc
          exact absurd hn hc
      exact tryLens_complete h1 hk hc

theorem take_of_le_takeWhile (p : Char → Bool) (s : List Char) (k : Nat)
    (hk : k ≤ (s.takeWhile p).length) : ∀ c ∈ s.take k, p c = true := by
  intro c hc
  have hpre : s.takeWhile p <+: s := List.takeWhile_prefix p
  have h1 : s.take k = (s.takeWhile p).take k := by
    obtain ⟨t, ht⟩ := hpre
    conv_lhs => rw [← ht]
    rw [List.take_append_of_le_length hk]
  rw [h1] at hc
  exact List.mem_takeWhile_imp (List.mem_of_mem_take hc)

/-- What the anchored matcher returns is a split of a prefix of the text into
pieces accepted by the atoms. -/
theorem matchAtoms_sound : ∀ (atoms : List Atom) (s : List Char) (pieces : List (List Char)),
    matchAtoms atoms s = some pieces →
      List.Forall₂ Atom.Accepts atoms pieces ∧ ∃ post, s = pieces.flatten ++ post
  | [], s, pieces, h => by
    simp only [matchAtoms, Option.some.injEq] at h
    subst h
    exact ⟨.nil, s, rfl⟩
  | .one p :: rest, [], pieces, h => by simp [matchAtoms] at h
  | .one p :: rest, c :: s, pieces, h => by
    simp only [matchAtoms] at h
    split_ifs at h with hp
    cases hr : matchAtoms rest s with
    | none => rw [hr] at h; simp at h
    | some r =>
      rw [hr] at h
      have h := Option.some.inj h
      subst h
      obtain ⟨hf, post, hpost⟩ := matchAtoms_sound rest s r hr
      exact ⟨.cons ⟨c, rfl, hp⟩ hf, post, by simp [hpost]⟩
  | .many1 p :: rest, s, pieces, h => by
    simp only [matchAtoms] at h
    obtain ⟨k, r', h1, h2, h3, h4⟩ := tryLens_some h
    obtain ⟨hf, post, hpost⟩ := matchAtoms_sound rest _ r' h4
    subst h3
    have hlen : (s.takeWhile p).length ≤ s.length := (List.takeWhile_prefix p).length_le
    refine ⟨.cons ⟨?_, take_of_le_takeWhile p s k h2⟩ hf, post, ?_⟩
    · intro h0
      have := congrArg List.length h0
      rw [List.length_take, List.length_nil] at this
      omega
    · rw [List.flatten_cons, List.append_assoc, ← hpost, List.take_append_drop]

/-- Every split of a prefix of the text into accepted pieces makes the anchored
matcher succeed. -/
theorem matchAtoms_complete : ∀ (atoms : List Atom) (pieces : List (List Char)) (post : List Char),
    List.Forall₂ Atom.Accepts atoms pieces → matchAtoms atoms (pieces.flatten ++ post) ≠ none
  | [], _, _, h => by
    cases h
    simp [matchAtoms]
  | .one p :: rest, _, post, h => by
    cases h with
    | cons ha hr =>
      obtain ⟨c, hc, hp⟩ := ha
      subst hc
      have ih := matchAtoms_complete rest _ post hr
      simp only [List.flatten_cons, List.singleton_append, List.cons_append, matchAtoms, hp,
        if_true]
      cases hm : matchAtoms rest _ with
      | none => exact absurd hm ih
      | some r => simp
  | .many1 p :: rest, _, post, h => by
    cases h with
    | @cons _ m _ ps ha hr =>
      obtain ⟨hne, hall⟩ := ha
      have ih := matchAtoms_complete rest ps post hr
      simp only [matchAtoms]
      have hlen : 1 ≤ m.length := by
        cases m with
        | nil => exact absurd rfl hne
        | cons _ _ => simp
      have htw : m.length ≤ (((m :: ps).flatten ++ post).takeWhile p).length := by
        rw [List.flatten_cons, List.append_assoc, List.takeWhile_append_of_pos hall]
        simp
      apply tryLens_complete hlen htw
      rw [List.flatten_cons, List.append_assoc, List.drop_left]
      exact ih

theorem findAtoms_sound (atoms : List Atom) : ∀ (s : List Char) (pieces : List (List Char)),
    findAtoms atoms s = some pieces →
      ∃ pre post, s = pre ++ pieces.flatten ++ post ∧ List.Forall₂ Atom.Accepts atoms pieces
  | [], pieces, h => by
    simp only [findAtoms] at h
    obtain ⟨hf, post, hpost⟩ := matchAtoms_sound atoms [] pieces h
    exact ⟨[], post, by simpa using hpost, hf⟩
  | c :: s, pieces, h => by
    simp only [findAtoms] at h
    cases hm : matchAtoms atoms (c :: s) with
    | some r =>
      rw [hm] at h
      have h := Option.some.inj h
      subst h
      obtain ⟨hf, post, hpost⟩ := matchAtoms_sound atoms (c :: s) r hm
      exact ⟨[], post, by simpa using hpost, hf⟩
    | none =>
      rw [hm] at h
      obtain ⟨pre, post, hs, hf⟩ := findAtoms_sound atoms s pieces h
      exact ⟨c :: pre, post, by simp [hs], hf⟩

theorem findAtoms_complete (atoms : List Atom) (pieces : List (List Char)) (post : List Char)
    (hf : List.Forall₂ Atom.Accepts atoms pieces) :
    ∀ pre : List Char, findAtoms atoms (pre ++ pieces.flatten ++ post) ≠ none
  | [] => by
    have hm := matchAtoms_complete atoms pieces post hf
    rw [List.nil_append]
    cases hs : pieces.flatten ++ post with
    | nil => rw [hs] at hm; simpa [findAtoms] using hm
    | cons c s =>
      rw [hs] at hm
      simp only [findAtoms]
      cases hc : matchAtoms atoms (c :: s) with
      | none => exact absurd hc hm
      | some r => simp
  | c :: pre => by
    have ih := findAtoms_complete atoms pieces post hf pre
    simp only [List.cons_append, findAtoms]
    cases hc : matchAtoms atoms (c :: (pre ++ pieces.flatten ++ post)) with
    | none => simpa [List.append_assoc] using ih
    | some r => simp

/-- The search finds nothing exactly when the text contains no match. -/
theorem findAtoms_eq_none_iff (atoms : List Atom) (s : List Char) :
    findAtoms atoms s = none ↔ ¬ Occurs atoms s := by
  constructor
  · rintro h ⟨pre, pieces, post, hs, hf⟩
    exact findAtoms_complete atoms pieces post hf pre (hs ▸ h)
  · intro h
    cases hfind : findAtoms atoms s with
    | none => rfl
    | some pieces =>
      obtain ⟨pre, post, hs, hf⟩ := findAtoms_sound atoms s pieces hfind
      exact absurd ⟨pre, pieces, post, hs, hf⟩ h

/-! ## Claims on the capability probe -/

/-- When the pattern compiled by the code finds nothing in the version string (the
empty string included), `isOldVersionSqlserver` does not return: indexing the
empty result of `FindStringSubmatch` panics; it returns neither `false` nor
`true`. -/
theorem probe_without_match (v : String) (h : ¬ Occurs versionRe.atoms v.data) :
    isOldVersionSqlserver "sqlserver" v =
      .error (.crash "index out of range [1] with length 0") ∧
    isOldVersionSqlserver "sqlserver" v ≠ .ok false ∧
    isOldVersionSqlserver "sqlserver" v ≠ .ok true := by
  have hnone := (findAtoms_eq_none_iff versionRe.atoms v.data).mpr h
  have hcrash : isOldVersionSqlserver "sqlserver" v =
      .error (.crash "index out of range [1] with length 0") := by
    unfold isOldVersionSqlserver Regexp.FindStringSubmatch
    rw [hnone]
    rfl
  rw [hcrash]
  exact ⟨rfl, by simp, by simp⟩

/-- The empty version string makes the probe panic. -/
theorem probe_without_match_witness :
    ¬ Occurs versionRe.atoms "".data ∧
    isOldVersionSqlserver "sqlserver" "" =
      .error (.crash "index out of range [1] with length 0") :=
  ⟨(findAtoms_eq_none_iff versionRe.atoms "".data).mp (by decide),
    (probe_without_match "" ((findAtoms_eq_none_iff versionRe.atoms "".data).mp (by decide))).1⟩

/-- C6 (the code departs from the claim). The version strings `12345.6` and
`2008 10.50.2500` hold no `<major>.<minor>.<build>.<revision>` occurrence, so the
probe should end in a fatal error.  The pattern of the code, whose first two dots
are not escaped, matches both: `isOldVersionSqlserver` returns `true` for the
first (major version 1) and `false` for the second (major version 2008). -/
theorem probe_returns_without_version :
    ¬ Occurs dottedVersionRe.atoms "12345.6".data ∧
    versionRe.FindStringSubmatch "12345.6" = ["12345.6", "1"] ∧
    isOldVersionSqlserver "sqlserver" "12345.6" = .ok true ∧
    ¬ Occurs dottedVersionRe.atoms "2008 10.50.2500".data ∧
    versionRe.FindStringSubmatch "2008 10.50.2500" = ["2008 10.50.2500", "2008"] ∧
    isOldVersionSqlserver "sqlserver" "2008 10.50.2500" = .ok false :=
  ⟨(findAtoms_eq_none_iff dottedVersionRe.atoms "12345.6".data).mp (by decide), by decide,
    by decide,
    (findAtoms_eq_none_iff dottedVersionRe.atoms "2008 10.50.2500".data).mp (by decide),
    by decide, by decide⟩

/-- C7 (the code departs from the claim). On the version string
`SQL Server 2008 10.50.2500.0` the first `<major>.<minor>.<build>.<revision>`
occurrence is `10.50.2500.0`, major version 10, so pagination is unsupported; the
pattern of the code, whose first two dots are not escaped, matches
`2008 10.50.2500` instead and `isOldVersionSqlserver` returns `false`. -/
theorem probe_unescaped_dots :
    versionRe.FindStringSubmatch "SQL Server 2008 10.50.2500.0" = ["2008 10.50.2500", "2008"] ∧
    isOldVersionSqlserver "sqlserver" "SQL Server 2008 10.50.2500.0" = .ok false ∧
    dottedVersionRe.FindStringSubmatch "SQL Server 2008 10.50.2500.0" = ["10.50.2500.0", "10"] ∧
    specOldVersion "sqlserver" "SQL Server 2008 10.50.2500.0" = true := by
  decide

/-- For every dialect but sqlserver the probe returns `false` without looking at
the version string. -/
theorem probe_other_dialect (name v : String) (h : name ≠ "sqlserver") :
    isOldVersionSqlserver name v = .ok false := by
  unfold isOldVersionSqlserver
  rw [if_neg (by simpa using h)]

/-! ## The header section -/

/-- With the flag already reset and the mutex free, a header section changes
nothing. -/
theorem headerSection_after (env : ThreadEnv) (w : Writer) (σ : World)
    (hh : σ.g.withHead = false) (hm : σ.mtxLocked = false) :
    headerSection env w σ = (.passed, w, σ) := by
  unfold headerSection
  simp only [hm, hh, Bool.false_eq_true, if_false]
  cases σ
  simp_all

/-- The first header section, when its calls succeed: the header reaches the
file, the flag is reset, the mutex is released. -/
theorem headerSection_first (env : ThreadEnv) (σ : World) (columns : List String)
    (hh : σ.g.withHead = true) (hm : σ.mtxLocked = false) (hc : env.columns = .ok columns)
    (hw : env.headWriteErr = none) (hf : env.headFlushErr = none) :
    headerSection env Writer.new σ =
      (.passed, Writer.new,
        { σ with file := σ.file ++ [columns], g := { σ.g with withHead := false } }) := by
  unfold headerSection
  simp only [hm, hh, hc, hw, hf, Bool.false_eq_true, if_false, if_true, Writer.Write,
    Writer.Flush, Writer.new, List.nil_append]

theorem headerSections_after : ∀ (envs : List ThreadEnv) (σ : World),
    σ.g.withHead = false → σ.mtxLocked = false →
      headerSections envs σ = (σ, List.replicate envs.length .passed)
  | [], _, _, _ => rfl
  | env :: rest, σ, hh, hm => by
    simp only [headerSections, headerSection_after env Writer.new σ hh hm,
      headerSections_after rest σ hh hm, List.length_cons, List.replicate_succ]

/-- C5. Header-once: let any number `n ≥ 1` of exporters run the header section of
`WriteCSV` one after the other, in any order, from `withHead = true` and a free
mutex, the column retrieval, the write and the flush of the first one succeeding.
Then exactly one header line is added to the output: the first exporter writes it,
flushes it and resets the flag, every exporter passes the section, no later one
writes anything, and the mutex ends free. -/
theorem header_once (env : ThreadEnv) (rest : List ThreadEnv) (σ : World)
    (columns : List String) (hh : σ.g.withHead = true) (hm : σ.mtxLocked = false)
    (hc : env.columns = .ok columns) (hw : env.headWriteErr = none)
    (hf : env.headFlushErr = none) :
    (headerSection env Writer.new σ).2.2.file = σ.file ++ [columns] ∧
    (headerSection env Writer.new σ).2.2.g.withHead = false ∧
    (headerSections (env :: rest) σ).1.file = σ.file ++ [columns] ∧
    (headerSections (env :: rest) σ).1.g.withHead = false ∧
    (headerSections (env :: rest) σ).1.mtxLocked = false ∧
    (headerSections (env :: rest) σ).2 = List.replicate (rest.length + 1) .passed := by
  have h1 := headerSection_first env σ columns hh hm hc hw hf
  have h2 := headerSections_after rest
    { σ with file := σ.file ++ [columns], g := { σ.g with withHead := false } } rfl hm
  simp only [headerSections, h1, h2, List.replicate_succ]
  exact ⟨trivial, trivial, trivial, trivial, hm, trivial⟩

/-- Instance of C5: three exporters on an empty file. -/
theorem header_once_witness :
    (startWorld ⟨3, "t", "t.csv", "mysql", "dsn", true⟩).g.withHead = true ∧
    (startWorld ⟨3, "t", "t.csv", "mysql", "dsn", true⟩).mtxLocked = false ∧
    (headerSections [quietEnv ["id", "name"] [], quietEnv ["id", "name"] [],
        quietEnv ["id", "name"] []] (startWorld ⟨3, "t", "t.csv", "mysql", "dsn", true⟩)).1.file =
      [] ++ [["id", "name"]] :=
  ⟨rfl, rfl,
    (header_once (quietEnv ["id", "name"] [])
      [quietEnv ["id", "name"] [], quietEnv ["id", "name"] []]
      (startWorld ⟨3, "t", "t.csv", "mysql", "dsn", true⟩) ["id", "name"]
      rfl rfl rfl rfl rfl).2.2.1⟩

/-! ## Errors inside `WriteCSV` -/

/-- Below the thousandth row the loop examines no error: it never reaches
`log.Fatal` and handles every row, whatever `Scan`, `Write` return. -/
theorem rowLoop_short (env : ThreadEnv) : ∀ (scans : List ScanResult) (i : Nat) (w : Writer)
    (file : List (List String)) (n : Nat), 1 ≤ i → i + scans.length ≤ 1000 →
      (rowLoop env scans i w file n).fatal = none ∧
      (rowLoop env scans i w file n).processed = n + scans.length ∧
      (rowLoop env scans i w file n).file = file
  | [], _, _, _, _, _, _ => ⟨rfl, rfl, rfl⟩
  | sc :: rest, i, w, file, n, h1, h2 => by
    have hi : (i % 1000 == 0) = false := by
      rw [beq_eq_false_iff_ne]
      simp only [List.length_cons] at h2
      omega
    have ih := rowLoop_short env rest (i + 1) (w.Write (toRecord sc.raw) (env.writeErr i)).1
      file (n + 1) (by omega) (by simp only [List.length_cons] at h2; omega)
    simp only [rowLoop, hi, Bool.false_eq_true, if_false]
    refine ⟨ih.1, ?_, ih.2.2⟩
    rw [ih.2.1, List.length_cons]
    omega

theorem Writer.Write_err (w : Writer) (r : List String) (f : Option String) :
    (w.Write r f).1.err ≠ none ↔ (w.err ≠ none ∨ f ≠ none) := by
  unfold Writer.Write
  cases hw : w.err <;> cases f <;> simp [hw]

theorem Writer.Flush_err (w : Writer) (file : List (List String)) (f : Option String) :
    (w.Flush file f).1.err ≠ none ↔ (w.err ≠ none ∨ f ≠ none) := by
  unfold Writer.Flush
  cases hw : w.err <;> cases f <;> simp [hw]

theorem rowLoop_fatal_iff (env : ThreadEnv) : ∀ (scans : List ScanResult) (i : Nat) (w : Writer)
    (file : List (List String)) (n : Nat),
    (rowLoop env scans i w file n).fatal ≠ none ↔
      ∃ j, i ≤ j ∧ j < i + scans.length ∧ j % 1000 = 0 ∧
        (w.err ≠ none ∨ ∃ k, i ≤ k ∧ k ≤ j ∧
          (env.writeErr k ≠ none ∨ (k % 1000 = 0 ∧ env.flushErr k ≠ none)))
  | [], i, w, file, n => by
    simp only [rowLoop, ne_eq, not_true_eq_false, List.length_nil, Nat.add_zero, false_iff]
    rintro ⟨j, h1, h2, _⟩
    omega
  | sc :: rest, i, w, file, n => by
    have hW := Writer.Write_err w (toRecord sc.raw) (env.writeErr i)
    by_cases hi : i % 1000 = 0
    · have hF := Writer.Flush_err (w.Write (toRecord sc.raw) (env.writeErr i)).1 file
        (env.flushErr i)
      have hb : (i % 1000 == 0) = true := by rw [beq_iff_eq]; exact hi
      simp only [rowLoop, hb, if_true, Writer.Error]
      cases he : ((w.Write (toRecord sc.raw) (env.writeErr i)).1.Flush file (env.flushErr i)).1.err with
      | some e =>
        simp only [ne_eq, reduceCtorEq, not_false_eq_true, true_iff]
        have h2 := hF.mp (by rw [he]; simp)
        refine ⟨i, le_refl _, by simp, hi, ?_⟩
        rcases h2 with h2 | h2
        · rcases hW.mp h2 with h3 | h3
          · exact Or.inl h3
          · exact Or.inr ⟨i, le_refl _, le_refl _, Or.inl h3⟩
        · exact Or.inr ⟨i, le_refl _, le_refl _, Or.inr ⟨hi, h2⟩⟩
      | none =>
        have hnF : ¬ ((w.Write (toRecord sc.raw) (env.writeErr i)).1.err ≠ none ∨
            env.flushErr i ≠ none) := fun h => (hF.mpr h) he
        have hnW : ¬ (w.err ≠ none ∨ env.writeErr i ≠ none) := fun h => hnF (Or.inl (hW.mpr h))
        have ih := rowLoop_fatal_iff env rest (i + 1)
          ((w.Write (toRecord sc.raw) (env.writeErr i)).1.Flush file (env.flushErr i)).1
          ((w.Write (toRecord sc.raw) (env.writeErr i)).1.Flush file (env.flushErr i)).2 (n + 1)
        rw [ih]
        constructor
        · rintro ⟨j, h1, h2, h3, h4⟩
          refine ⟨j, by omega, by simp only [List.length_cons]; omega, h3, ?_⟩
          rcases h4 with h4 | ⟨k, hk1, hk2, hk3⟩
          · exact absurd he h4
          · exact Or.inr ⟨k, by omega, hk2, hk3⟩
        · rintro ⟨j, h1, h2, h3, h4⟩
          simp only [List.length_cons] at h2
          have hk : ∃ k, i + 1 ≤ k ∧ k ≤ j ∧
              (env.writeErr k ≠ none ∨ (k % 1000 = 0 ∧ env.flushErr k ≠ none)) := by
            rcases h4 with h4 | ⟨k, hk1, hk2, hk3⟩
            · exact absurd (Or.inl h4) hnW
            · rcases Nat.eq_or_lt_of_le hk1 with hk | hk
              · subst hk
                rcases hk3 with hk3 | ⟨_, hk3⟩
                · exact absurd (Or.inr hk3) hnW
                · exact absurd (Or.inr hk3) hnF
              · exact ⟨k, hk, hk2, hk3⟩
          obtain ⟨k, hk1, hk2, hk3⟩ := hk
          exact ⟨j, by omega, by omega, h3, Or.inr ⟨k, hk1, hk2, hk3⟩⟩
    · have hb : (i % 1000 == 0) = false := by rw [beq_eq_false_iff_ne]; exact hi
      simp only [rowLoop, hb, Bool.false_eq_true, if_false]
      have ih := rowLoop_fatal_iff env rest (i + 1)
          (w.Write (toRecord sc.raw) (env.writeErr i)).1 file (n + 1)
      rw [ih]
      constructor
      · rintro ⟨j, h1, h2, h3, h4⟩
        refine ⟨j, by omega, by simp only [List.length_cons]; omega, h3, ?_⟩
        rcases h4 with h4 | ⟨k, hk1, hk2, hk3⟩
        · rcases hW.mp h4 with h5 | h5
          · exact Or.inl h5
          · exact Or.inr ⟨i, le_refl _, by omega, Or.inl h5⟩
        · exact Or.inr ⟨k, by omega, hk2, hk3⟩
      · rintro ⟨j, h1, h2, h3, h4⟩
        simp only [List.length_cons] at h2
        have hj : i + 1 ≤ j := by
          rcases Nat.eq_or_lt_of_le h1 with h | h
          · subst h; exact absurd h3 hi
          · exact h
        refine ⟨j, hj, by omega, h3, ?_⟩
        rcases h4 with h4 | ⟨k, hk1, hk2, hk3⟩
        · exact Or.inl (hW.mpr (Or.inl h4))
        · rcases Nat.eq_or_lt_of_le hk1 with hk | hk
          · subst hk
            rcases hk3 with hk3 | ⟨hk3, _⟩
            · exact Or.inl (hW.mpr (Or.inr hk3))
            · exact absurd hk3 hi
          · exact Or.inr ⟨k, hk, hk2, hk3⟩

theorem rowLoop_processed (env : ThreadEnv) : ∀ (scans : List ScanResult) (i : Nat) (w : Writer)
    (file : List (List String)) (n : Nat),
    (rowLoop env scans i w file n).fatal = none →
      (rowLoop env scans i w file n).processed = n + scans.length
  | [], _, _, _, _, _ => rfl
  | sc :: rest, i, w, file, n, h => by
    by_cases hi : (i % 1000 == 0) = true
    · simp only [rowLoop, hi, if_true, Writer.Error] at h ⊢
      cases he : ((w.Write (toRecord sc.raw) (env.writeErr i)).1.Flush file (env.flushErr i)).1.err with
      | some e => rw [he] at h; simp at h
      | none =>
        rw [he] at h
        simp only at h ⊢
        rw [rowLoop_processed env rest _ _ _ _ h, List.length_cons]
        omega
    · simp only [rowLoop, hi, Bool.false_eq_true, if_false] at h ⊢
      rw [rowLoop_processed env rest _ _ _ _ h, List.length_cons]
      omega

/-- The outcome of `WriteCSV` once the cursor, the column names and the header are
obtained: the writer enters the row loop holding the error of the header flush,
if any, and the loop decides between `log.Fatal` and nil. -/
theorem WriteCSV_after_setup (name v : String) (env : ThreadEnv) (t : ExportThread) (σ : World)
    (old : Bool) (hp : isOldVersionSqlserver name v = .ok old) (hm : σ.mtxLocked = false)
    (hs : setupOk env σ) :
    ∃ (w : Writer) (file : List (List String)),
      w.err = (if σ.g.withHead then env.headFlushErr else none) ∧
      (WriteCSV name v env t Writer.new σ).outcome =
        (match (rowLoop env env.scans 1 w file 0).fatal with
          | some m => .fatal m
          | none => .returned none) ∧
      (WriteCSV name v env t Writer.new σ).processed =
        (rowLoop env env.scans 1 w file 0).processed := by
  obtain ⟨hr, ⟨columns, hc⟩, hw⟩ := hs
  by_cases hh : σ.g.withHead = true
  · have hw := hw hh
    cases hf : env.headFlushErr with
    | none =>
      refine ⟨Writer.new, σ.file ++ [columns], by rw [if_pos hh]; rfl, ?_, ?_⟩
      · simp only [WriteCSV, hp, hr, headerSection_first env σ columns hh hm hc hw hf, hc]
        cases (rowLoop env env.scans 1 Writer.new (σ.file ++ [columns]) 0).fatal <;> rfl
      · simp only [WriteCSV, hp, hr, headerSection_first env σ columns hh hm hc hw hf, hc]
        cases (rowLoop env env.scans 1 Writer.new (σ.file ++ [columns]) 0).fatal <;> rfl
    | some e =>
      have hsec : headerSection env Writer.new σ =
          (.passed, { pending := [columns], err := some e },
            { σ with g := { σ.g with withHead := false } }) := by
        unfold headerSection
        simp only [hm, hh, hc, hw, hf, Bool.false_eq_true, if_false, if_true, Writer.Write,
          Writer.Flush, Writer.new, List.nil_append]
      refine ⟨{ pending := [columns], err := some e }, σ.file, by rw [if_pos hh], ?_, ?_⟩
      · simp only [WriteCSV, hp, hr, hsec, hc]
        cases (rowLoop env env.scans 1 { pending := [columns], err := some e } σ.file 0).fatal <;>
          rfl
      · simp only [WriteCSV, hp, hr, hsec, hc]
        cases (rowLoop env env.scans 1 { pending := [columns], err := some e } σ.file 0).fatal <;>
          rfl
  · have hh : σ.g.withHead = false := by simpa using hh
    refine ⟨Writer.new, σ.file, by rw [hh]; rfl, ?_, ?_⟩
    · simp only [WriteCSV, hp, hr, headerSection_after env Writer.new σ hh hm, hc]
      cases (rowLoop env env.scans 1 Writer.new σ.file 0).fatal <;> rfl
    · simp only [WriteCSV, hp, hr, headerSection_after env Writer.new σ hh hm, hc]
      cases (rowLoop env env.scans 1 Writer.new σ.file 0).fatal <;> rfl

/-- Without the cursor, the column names or the header `WriteCSV` returns the
error of the failing call. -/
theorem WriteCSV_setup_error (name v : String) (env : ThreadEnv) (t : ExportThread) (σ : World)
    (old : Bool) (hp : isOldVersionSqlserver name v = .ok old) (hm : σ.mtxLocked = false) :
    (∀ e, env.rowsErr = some e →
      (WriteCSV name v env t Writer.new σ).outcome = .returned (some e)) ∧
    (∀ e, env.rowsErr = none → env.columns = .error e →
      (WriteCSV name v env t Writer.new σ).outcome = .returned (some e)) ∧
    (∀ e columns, env.rowsErr = none → env.columns = .ok columns → σ.g.withHead = true →
      env.headWriteErr = some e →
      (WriteCSV name v env t Writer.new σ).outcome = .returned (some e)) := by
  refine ⟨?_, ?_, ?_⟩
  · intro e hr
    simp only [WriteCSV, hp, hr]
  · intro e hr hc
    by_cases hh : σ.g.withHead = true
    · have hsec : headerSection env Writer.new σ =
          (.failed e, Writer.new, { σ with mtxLocked := true }) := by
        unfold headerSection
        simp only [hm, hh, hc, Bool.false_eq_true, if_false, if_true]
      simp only [WriteCSV, hp, hr, hsec]
    · have hh : σ.g.withHead = false := by simpa using hh
      simp only [WriteCSV, hp, hr, headerSection_after env Writer.new σ hh hm, hc]
  · intro e columns hr hc hh hw
    have hsec : headerSection env Writer.new σ =
        (.failed e, { pending := [], err := some e }, { σ with mtxLocked := true }) := by
      unfold headerSection
      simp only [hm, hh, hc, hw, Bool.false_eq_true, if_false, if_true, Writer.Write,
        Writer.new]
    simp only [WriteCSV, hp, hr, hsec]

/-- C8, refuted as stated. Two rows, the `Scan` of the first one failing:
`WriteCSV` does not stop, writes both rows and returns nil.  The same when the
cursor breaks after the second row: `rows.Err()` is never read. -/
theorem scan_error_ignored :
    (∃ sc ∈ (quietEnv ["id"] [⟨[none], some "sql: Scan error on column index 0"⟩,
        ⟨[some "2"], none⟩]).scans, sc.err ≠ none) ∧
    (WriteCSV "mysql" ""
        (quietEnv ["id"] [⟨[none], some "sql: Scan error on column index 0"⟩, ⟨[some "2"], none⟩])
        ⟨0, 1, "thread-0"⟩ Writer.new (startWorld ⟨1, "t", "t.csv", "mysql", "dsn", true⟩)) =
      { outcome := .returned none,
        world := { g := ⟨1, "t", "t.csv", "mysql", "dsn", false⟩, mtxLocked := false,
                   file := [["id"], [""], ["2"]], wg := 0 },
        writer := Writer.new,
        query := some { table := "t", offset := some 0, limit := some 2 },
        rowsOpen := false, processed := 2 } ∧
    (WriteCSV "mysql" ""
        { quietEnv ["id"] [⟨[some "1"], none⟩, ⟨[some "2"], none⟩] with
          nextErr := some "driver: bad connection" }
        ⟨0, 9, "thread-0"⟩ Writer.new
        (startWorld ⟨1, "t", "t.csv", "mysql", "dsn", true⟩)).outcome = .returned none := by
  decide

/-- C8, amended. With the probe answering and the mutex free, `WriteCSV` returns the
error of `db.Rows()`, of `rows.Columns()` or of the header write when one of them
fails; once these succeeded it ends the job through `log.Fatal` whenever the
writer holds an error at a periodic check (after a row whose number is a multiple
of 1000, the error coming from a write or a flush up to that row or from the
header flush); and it returns nil only when these three calls succeeded and no
periodic check found an error, every fetched row having been handled.  The result
of `rows.Scan` plays no part: when no write and no flush fails, `WriteCSV` returns
nil whatever the scans returned. -/
theorem WriteCSV_error_handling (name v : String) (env : ThreadEnv) (t : ExportThread)
    (σ : World) (old : Bool) (hp : isOldVersionSqlserver name v = .ok old)
    (hm : σ.mtxLocked = false) :
    (∀ e, env.rowsErr = some e →
      (WriteCSV name v env t Writer.new σ).outcome = .returned (some e)) ∧
    (∀ e, env.rowsErr = none → env.columns = .error e →
      (WriteCSV name v env t Writer.new σ).outcome = .returned (some e)) ∧
    (∀ e columns, env.rowsErr = none → env.columns = .ok columns → σ.g.withHead = true →
      env.headWriteErr = some e →
      (WriteCSV name v env t Writer.new σ).outcome = .returned (some e)) ∧
    (setupOk env σ → checkFails env (if σ.g.withHead then env.headFlushErr else none) →
      ∃ m, (WriteCSV name v env t Writer.new σ).outcome = .fatal m) ∧
    ((WriteCSV name v env t Writer.new σ).outcome = .returned none →
      setupOk env σ ∧ ¬ checkFails env (if σ.g.withHead then env.headFlushErr else none) ∧
      (WriteCSV name v env t Writer.new σ).processed = env.scans.length) ∧
    (setupOk env σ → (∀ i, env.writeErr i = none) → (∀ i, env.flushErr i = none) →
      env.headFlushErr = none → env.finalFlushErr = none →
      (WriteCSV name v env t Writer.new σ).outcome = .returned none) := by
  obtain ⟨h1, h2, h3⟩ := WriteCSV_setup_error name v env t σ old hp hm
  have hcheck : ∀ (w : Writer) (file : List (List String)),
      w.err = (if σ.g.withHead then env.headFlushErr else none) →
      ((rowLoop env env.scans 1 w file 0).fatal ≠ none ↔
        checkFails env (if σ.g.withHead then env.headFlushErr else none)) := by
    intro w file hw
    rw [rowLoop_fatal_iff, hw]
    unfold checkFails faultUpTo
    constructor
    · rintro ⟨j, a, b, c, d⟩
      exact ⟨j, a, by omega, c, d⟩
    · rintro ⟨j, a, b, c, d⟩
      exact ⟨j, a, by omega, c, d⟩
  refine ⟨h1, h2, h3, ?_, ?_, ?_⟩
  rotate_left 2
  · intro hs hw hfl hhf _
    obtain ⟨w, file, hwe, ho, _⟩ := WriteCSV_after_setup name v env t σ old hp hm hs
    have hno : ¬ checkFails env (if σ.g.withHead then env.headFlushErr else none) := by
      rintro ⟨j, _, _, _, hf⟩
      rcases hf with hf | ⟨i, _, _, hf | ⟨_, hf⟩⟩
      · rw [hhf] at hf
        exact hf (by split_ifs <;> rfl)
      · exact hf (hw i)
      · exact hf (hfl i)
    cases hl : (rowLoop env env.scans 1 w file 0).fatal with
    | some m => exact absurd ((hcheck w file hwe).mp (by rw [hl]; simp)) hno
    | none =>
      rw [hl] at ho
      exact ho
  · intro hs hf
    obtain ⟨w, file, hw, ho, _⟩ := WriteCSV_after_setup name v env t σ old hp hm hs
    have hfat := (hcheck w file hw).mpr hf
    cases hl : (rowLoop env env.scans 1 w file 0).fatal with
    | none => exact absurd hl hfat
    | some m =>
      rw [hl] at ho
      exact ⟨m, ho⟩
  · intro hret
    have hs : setupOk env σ := by
      refine ⟨?_, ?_, ?_⟩
      · cases hr : env.rowsErr with
        | none => rfl
        | some e =>
          rw [h1 e hr] at hret
          exact absurd hret (by simp)
      · cases hr : env.rowsErr with
        | some e =>
          rw [h1 e hr] at hret
          exact absurd hret (by simp)
        | none =>
          cases hc : env.columns with
          | ok columns => exact ⟨columns, rfl⟩
          | error e =>
            rw [h2 e hr hc] at hret
            exact absurd hret (by simp)
      · intro hh
        cases hw : env.headWriteErr with
        | none => rfl
        | some e =>
          cases hr : env.rowsErr with
          | some e' =>
            rw [h1 e' hr] at hret
            exact absurd hret (by simp)
          | none =>
            cases hc : env.columns with
            | error e' =>
              rw [h2 e' hr hc] at hret
              exact absurd hret (by simp)
            | ok columns =>
              rw [h3 e columns hr hc hh hw] at hret
              exact absurd hret (by simp)
    obtain ⟨w, file, hw, ho, hn⟩ := WriteCSV_after_setup name v env t σ old hp hm hs
    cases hl : (rowLoop env env.scans 1 w file 0).fatal with
    | some m =>
      rw [hl, hret] at ho
      exact absurd ho (by simp)
    | none =>
      refine ⟨hs, ?_, ?_⟩
      · intro hf
        exact (hcheck w file hw).mpr hf hl
      · rw [hn, rowLoop_processed env _ _ _ _ _ hl, Nat.zero_add]

/-- Instance of the amended C8: an exporter of 1000 rows on a file that rejects
every write is stopped by `log.Fatal` at the first periodic check. -/
theorem WriteCSV_error_handling_witness :
    isOldVersionSqlserver "mysql" "" = .ok false ∧
    (startWorld ⟨1, "t", "t.csv", "mysql", "dsn", false⟩).mtxLocked = false ∧
    ∃ m, (WriteCSV "mysql" ""
        { quietEnv ["id"] (List.replicate 1000 ⟨[some "1"], none⟩) with
          writeErr := fun _ => some "write t.csv: no space left on device" }
        ⟨0, 999, "thread-0"⟩ Writer.new
        (startWorld ⟨1, "t", "t.csv", "mysql", "dsn", false⟩)).outcome = .fatal m :=
  ⟨by decide, rfl,
    (WriteCSV_error_handling "mysql" ""
      { quietEnv ["id"] (List.replicate 1000 ⟨[some "1"], none⟩) with
        writeErr := fun _ => some "write t.csv: no space left on device" }
      ⟨0, 999, "thread-0"⟩ (startWorld ⟨1, "t", "t.csv", "mysql", "dsn", false⟩) false
      (by decide) rfl).2.2.2.1
      ⟨rfl, ⟨["id"], rfl⟩, fun h => absurd h (by decide)⟩
      ⟨1000, by decide,
        (List.length_replicate 1000 (⟨[some "1"], none⟩ : ScanResult)).ge, by decide,
        Or.inr ⟨1, by decide, by decide, Or.inl (by simp)⟩⟩⟩

/-- An early return out of the header section keeps `mtx` locked. -/
theorem WriteCSV_keeps_mutex (name v : String) (env : ThreadEnv) (t : ExportThread) (σ : World)
    (old : Bool) (e : String) (hp : isOldVersionSqlserver name v = .ok old)
    (hm : σ.mtxLocked = false) (hr : env.rowsErr = none) (hh : σ.g.withHead = true)
    (hc : env.columns = .error e) :
    (WriteCSV name v env t Writer.new σ).outcome = .returned (some e) ∧
    (WriteCSV name v env t Writer.new σ).world.mtxLocked = true := by
  have hsec : headerSection env Writer.new σ =
      (.failed e, Writer.new, { σ with mtxLocked := true }) := by
    unfold headerSection
    simp only [hm, hh, hc, Bool.false_eq_true, if_false, if_true]
  simp only [WriteCSV, hp, hr, hsec]
  exact ⟨trivial, trivial⟩

/-- An exporter that finds `mtx` locked never gets past `mtx.Lock()`. -/
theorem WriteCSV_blocked (name v : String) (env : ThreadEnv) (t : ExportThread) (w : Writer)
    (σ : World) (old : Bool) (hp : isOldVersionSqlserver name v = .ok old)
    (hr : env.rowsErr = none) (hm : σ.mtxLocked = true) :
    (WriteCSV name v env t w σ).outcome = .blocked := by
  have hsec : headerSection env w σ = (.blocked, w, σ) := by
    unfold headerSection
    simp only [hm, if_true]
  simp only [WriteCSV, hp, hr, hsec]

/-- C10 (the code departs from the claim). The first of two exporters fails to
read the column names inside the header section: `WriteCSV` returns the error
with `mtx` still locked, and the second exporter waits on `mtx.Lock()` for ever. -/
theorem early_return_keeps_mutex :
    (WriteCSV "mysql" "" { quietEnv [] [] with columns := .error "sql: Rows are closed" }
        ⟨0, 49, "thread-0"⟩ Writer.new (startWorld ⟨2, "t", "t.csv", "mysql", "dsn", true⟩)) =
      { outcome := .returned (some "sql: Rows are closed"),
        world := { g := ⟨2, "t", "t.csv", "mysql", "dsn", true⟩, mtxLocked := true, file := [],
                   wg := 1 },
        writer := Writer.new,
        query := some { table := "t", offset := some 0, limit := some 50 },
        rowsOpen := true, processed := 0 } ∧
    (WriteCSV "mysql" "" (quietEnv ["id"] [⟨[some "7"], none⟩]) ⟨50, 99, "thread-1"⟩ Writer.new
        { g := ⟨2, "t", "t.csv", "mysql", "dsn", true⟩, mtxLocked := true, file := [],
          wg := 1 }).outcome = .blocked := by
  decide

/-! ## Rows of several exporters in one file -/

/-- The bytes of a run of letters `a`. -/
theorem bytesOf_replicate_a (n : Nat) :
    bytesOf (List.replicate n 'a') = List.replicate n 97 := by
  induction n with
  | zero => rfl
  | succ n ih =>
    have h : bytesOf (List.replicate (n + 1) 'a') = 97 :: bytesOf (List.replicate n 'a') := rfl
    rw [h, ih, List.replicate_succ]

/-- A field of letters `a` is written without quotes. -/
theorem fieldNeedsQuotes_lettersA (n : Nat) : fieldNeedsQuotes (lettersA (n + 1)) = false := by
  have hdata : (lettersA (n + 1)).data = 'a' :: List.replicate n 'a' := rfl
  have h1 : (lettersA (n + 1) == "") = false := by
    rw [beq_eq_false_iff_ne]
    intro h
    have := congrArg String.data h
    rw [hdata] at this
    exact absurd this (by simp)
  have h2 : (lettersA (n + 1) == "\\.") = false := by
    rw [beq_eq_false_iff_ne]
    intro h
    have := congrArg String.data h
    rw [hdata] at this
    have h3 : "\\.".data = ['\\', '.'] := rfl
    rw [h3] at this
    exact absurd (List.cons.inj this).1 (by decide)
  have h3 : (lettersA (n + 1)).data.any
      (fun c => c == '\n' || c == '\r' || c == '"' || c == ',') = false := by
    rw [List.any_eq_false]
    intro c hc
    have hc' : c = 'a' := by
      rw [hdata] at hc
      rcases List.mem_cons.mp hc with h | h
      · exact h
      · exact List.eq_of_mem_replicate h
    rw [hc']
    decide
  unfold fieldNeedsQuotes
  rw [h1, h2, h3, hdata]
  rfl

/-- The calls for a record whose only field is a run of letters `a`. -/
theorem recordPieces_lettersA (n : Nat) :
    recordPieces [lettersA (n + 1)] = [.str (List.replicate (n + 1) 97), .byte 10] := by
  have hb : bytesOf (lettersA (n + 1)).data = List.replicate (n + 1) 97 :=
    bytesOf_replicate_a (n + 1)
  simp only [recordPieces, fieldPieces, fieldNeedsQuotes_lettersA, hb, Nat.lt_irrefl, if_false,
    Bool.not_false, if_true, List.nil_append, List.append_nil, List.singleton_append,
    gt_iff_lt]

/-- The calls for the record of ten letters `b`. -/
theorem recordPieces_b10 :
    recordPieces ["bbbbbbbbbb"] = [.str [98, 98, 98, 98, 98, 98, 98, 98, 98, 98], .byte 10] := by
  decide

/-- The exporter of `longRows 4090` writes twice: its buffer is full five bytes
into the second record and is written out there; the final flush writes the rest. -/
theorem exporterWrites_longRows (n : Nat) (hn : n + 1 = 4090) :
    exporterWrites (longRows (n + 1)) =
      [List.replicate (n + 1) 97 ++ [10, 98, 98, 98, 98, 98], [98, 98, 98, 98, 98, 10]] := by
  have hlen : (List.replicate (n + 1) 97 : List Nat).length = 4090 := by
    rw [List.length_replicate, hn]
  have w1 : bufWrite [] (.str (List.replicate (n + 1) 97)) = (List.replicate (n + 1) 97, []) := by
    simp only [bufWrite, hlen, defaultBufSize, List.length_nil, List.nil_append]
    rfl
  have w2 : bufWrite (List.replicate (n + 1) 97) (.byte 10) =
      (List.replicate (n + 1) 97 ++ [10], []) := by
    simp only [bufWrite, hlen, defaultBufSize]
    rfl
  have hlen2 : (List.replicate (n + 1) 97 ++ [10] : List Nat).length = 4091 := by
    rw [List.length_append, hlen]
    rfl
  have hne : (List.replicate (n + 1) 97 ++ [10] : List Nat).isEmpty = false := by
    rw [List.replicate_succ]
    rfl
  have w3 : bufWrite (List.replicate (n + 1) 97 ++ [10])
      (.str [98, 98, 98, 98, 98, 98, 98, 98, 98, 98]) =
      ([98, 98, 98, 98, 98], [List.replicate (n + 1) 97 ++ [10] ++ [98, 98, 98, 98, 98]]) := by
    simp only [bufWrite, hlen2, hne, defaultBufSize]
    rfl
  have w4 : bufWrite [98, 98, 98, 98, 98] (.byte 10) = ([98, 98, 98, 98, 98, 10], []) := by
    decide
  have p1 : recordPieces (toRecord [some (lettersA (n + 1))]) =
      [.str (List.replicate (n + 1) 97), .byte 10] := recordPieces_lettersA n
  have p2 : recordPieces (toRecord [some "bbbbbbbbbb"]) =
      [.str [98, 98, 98, 98, 98, 98, 98, 98, 98, 98], .byte 10] := recordPieces_b10
  have b1 : bufWrites [] [.str (List.replicate (n + 1) 97), .byte 10] =
      (List.replicate (n + 1) 97 ++ [10], []) := by
    simp only [bufWrites, w1, w2, List.append_nil]
  have b2 : bufWrites (List.replicate (n + 1) 97 ++ [10])
      [.str [98, 98, 98, 98, 98, 98, 98, 98, 98, 98], .byte 10] =
      ([98, 98, 98, 98, 98, 10], [List.replicate (n + 1) 97 ++ [10] ++ [98, 98, 98, 98, 98]]) := by
    simp only [bufWrites, w3, w4, List.append_nil]
  have h1 : (1 % 1000 == 0) = false := by decide
  have h2 : ((1 + 1) % 1000 == 0) = false := by decide
  have hloop : chunkLoop (longRows (n + 1)) 1 [] =
      ([98, 98, 98, 98, 98, 10], [List.replicate (n + 1) 97 ++ [10] ++ [98, 98, 98, 98, 98]]) := by
    simp only [longRows, chunkLoop, p1, p2, b1, b2, h1, h2, Bool.false_eq_true, if_false,
      List.nil_append, List.append_nil]
  have hflush : bufFlush [98, 98, 98, 98, 98, 10] = ([], [[98, 98, 98, 98, 98, 10]]) := by
    decide
  simp only [exporterWrites, hloop, hflush, List.append_assoc, List.singleton_append,
    List.cons_append, List.nil_append]

/-- The line of a record whose only field is a run of letters `a`. -/
theorem encodeRecord_lettersA (n : Nat) :
    encodeRecord [lettersA (n + 1)] = List.replicate (n + 1) 97 ++ [10] := by
  simp only [encodeRecord, recordPieces_lettersA, List.map, Piece.bytes, List.flatten,
    List.append_nil]

/-- The three files in which the three records are whole lines. -/
theorem wholeRecordFiles_example (n : Nat) :
    wholeRecordFiles [shortRows, longRows (n + 1)] =
      [[99, 10] ++ (List.replicate (n + 1) 97 ++
          [10, 98, 98, 98, 98, 98, 98, 98, 98, 98, 98, 10]),
        List.replicate (n + 1) 97 ++
          [10, 99, 10, 98, 98, 98, 98, 98, 98, 98, 98, 98, 98, 10],
        List.replicate (n + 1) 97 ++
          [10, 98, 98, 98, 98, 98, 98, 98, 98, 98, 98, 10, 99, 10]] := by
  have e1 : encodeRecord (toRecord [some "c"]) = [99, 10] := by decide
  have e2 : encodeRecord (toRecord [some (lettersA (n + 1))]) =
      List.replicate (n + 1) 97 ++ [10] := encodeRecord_lettersA n
  have e3 : encodeRecord (toRecord [some "bbbbbbbbbb"]) =
      [98, 98, 98, 98, 98, 98, 98, 98, 98, 98, 10] := by decide
  simp only [wholeRecordFiles, recordLines, shortRows, longRows, List.map, e1, e2, e3,
    interleavings, merges,
    List.flatten, List.append_nil, List.nil_append, List.cons_append, List.append_assoc,
    List.singleton_append]

/-- The run below for a first field of `n + 1 = 4090` letters, the length kept as a
variable. -/
theorem mixed_file_general (n : Nat) (hn : n + 1 = 4090) :
    exporterWrites shortRows = [[99, 10]] ∧
    exporterWrites (longRows (n + 1)) =
      [List.replicate (n + 1) 97 ++ [10, 98, 98, 98, 98, 98], [98, 98, 98, 98, 98, 10]] ∧
    runSchedule [1, 0, 1] [exporterWrites shortRows, exporterWrites (longRows (n + 1))] [] =
      (List.replicate (n + 1) 97 ++ [10, 98, 98, 98, 98, 98, 99, 10, 98, 98, 98, 98, 98, 10],
        [[], []]) ∧
    (List.replicate (n + 1) 97 ++ [10, 98, 98, 98, 98, 98, 99, 10, 98, 98, 98, 98, 98, 10]) ∉
      wholeRecordFiles [shortRows, longRows (n + 1)] := by
  have hs : exporterWrites shortRows = [[99, 10]] := by decide
  have hl := exporterWrites_longRows n hn
  refine ⟨hs, hl, ?_, ?_⟩
  · rw [hs, hl]
    simp only [runSchedule, List.get?, List.set, List.nil_append, List.append_assoc,
      List.cons_append]
  · rw [wholeRecordFiles_example]
    intro h
    simp only [List.mem_cons, List.mem_singleton, List.not_mem_nil, or_false] at h
    rcases h with h | h | h
    · rw [List.replicate_succ] at h
      exact absurd (List.cons.inj h).1 (by decide)
    · exact absurd (List.append_cancel_left h) (by decide)
    · exact absurd (List.append_cancel_left h) (by decide)

/-- A call on the buffered writer loses and reorders nothing: the writes it makes
followed by the new buffer are the old buffer followed by the bytes of the call. -/
theorem bufWrite_bytes (buf : List Nat) (p : Piece) :
    (bufWrite buf p).2.flatten ++ (bufWrite buf p).1 = buf ++ p.bytes := by
  cases p with
  | byte b =>
    simp only [bufWrite, Piece.bytes]
    split_ifs <;> simp
  | str s =>
    simp only [bufWrite, Piece.bytes]
    split_ifs with h1 h2 h3
    · simp
    · simp [List.isEmpty_iff.mp h2]
    · simp
    · simp

/-- A sequence of calls on the buffered writer loses and reorders nothing. -/
theorem bufWrites_bytes : ∀ (ps : List Piece) (buf : List Nat),
    (bufWrites buf ps).2.flatten ++ (bufWrites buf ps).1 =
      buf ++ (ps.map Piece.bytes).flatten
  | [], buf => by simp [bufWrites]
  | p :: ps, buf => by
    have h1 := bufWrite_bytes buf p
    have h2 := bufWrites_bytes ps (bufWrite buf p).1
    simp only [bufWrites, List.flatten_append, List.append_assoc, h2, List.map_cons,
      List.flatten_cons]
    rw [← List.append_assoc, h1, List.append_assoc]

/-- A flush loses nothing. -/
theorem bufFlush_bytes (buf : List Nat) :
    (bufFlush buf).2.flatten ++ (bufFlush buf).1 = buf := by
  unfold bufFlush
  split_ifs with h
  · simp [List.isEmpty_iff.mp h]
  · simp

/-- The row loop loses and reorders nothing of one exporter. -/
theorem chunkLoop_bytes : ∀ (scans : List ScanResult) (i : Nat) (buf : List Nat),
    (chunkLoop scans i buf).2.flatten ++ (chunkLoop scans i buf).1 =
      buf ++ (scans.map (fun sc => encodeRecord (toRecord sc.raw))).flatten
  | [], _, buf => by simp [chunkLoop]
  | sc :: rest, i, buf => by
    have h1 := bufWrites_bytes (recordPieces (toRecord sc.raw)) buf
    by_cases hi : (i % 1000 == 0) = true
    · have h2 := bufFlush_bytes (bufWrites buf (recordPieces (toRecord sc.raw))).1
      have h3 := chunkLoop_bytes rest (i + 1)
        (bufFlush (bufWrites buf (recordPieces (toRecord sc.raw))).1).1
      simp only [chunkLoop, hi, if_true, List.flatten_append, List.append_assoc, h3,
        List.map_cons, List.flatten_cons]
      rw [← List.append_assoc (bufFlush _).2.flatten, h2, ← List.append_assoc, h1,
        List.append_assoc]
      rfl
    · have h3 := chunkLoop_bytes rest (i + 1) (bufWrites buf (recordPieces (toRecord sc.raw))).1
      simp only [chunkLoop, hi, Bool.false_eq_true, if_false, List.flatten_append,
        List.append_assoc, h3, List.map_cons, List.flatten_cons]
      rw [← List.append_assoc, h1, List.append_assoc]
      rfl

/-- An exporter alone writes its records whole and in order: its writes, put end
to end, are the lines of its rows. -/
theorem exporterWrites_flatten (scans : List ScanResult) :
    (exporterWrites scans).flatten =
      (scans.map (fun sc => encodeRecord (toRecord sc.raw))).flatten := by
  have h1 := chunkLoop_bytes scans 1 []
  have h2 := bufFlush_bytes (chunkLoop scans 1 []).1
  have h3 : (bufFlush (chunkLoop scans 1 []).1).1 = [] := by
    unfold bufFlush
    split_ifs <;> rfl
  rw [h3, List.append_nil] at h2
  simp only [exporterWrites, List.flatten_append, h2]
  simpa using h1

/-- Merging with nothing changes nothing. -/
theorem merges_nil_right {α : Type} (xs : List α) : merges xs [] = [xs] := by
  cases xs <;> simp [merges]

/-- A merge may start with the head of the first sequence. -/
theorem merges_cons_left {α : Type} (c : α) (more ys z : List α) (hz : z ∈ merges more ys) :
    c :: z ∈ merges (c :: more) ys := by
  cases ys with
  | nil =>
    rw [merges_nil_right] at hz ⊢
    rw [List.mem_singleton] at hz ⊢
    rw [hz]
  | cons y ys =>
    simp only [merges, List.mem_append, List.mem_map]
    exact Or.inl ⟨z, hz, rfl⟩

/-- A merge may start with the head of the second sequence. -/
theorem merges_cons_right {α : Type} (c : α) (xs more z : List α) (hz : z ∈ merges xs more) :
    c :: z ∈ merges xs (c :: more) := by
  cases xs with
  | nil =>
    simp only [merges, List.mem_singleton] at hz ⊢
    rw [hz]
  | cons x xs =>
    simp only [merges, List.mem_append, List.mem_map]
    exact Or.inr ⟨z, hz, rfl⟩

/-- The interleavings of several sequences merge the first into an interleaving of
the others. -/
theorem mem_interleavings_cons {α : Type} (q : List α) (qs : List (List α)) (z : List α) :
    z ∈ interleavings (q :: qs) ↔ ∃ w ∈ interleavings qs, z ∈ merges q w := by
  simp only [interleavings, List.mem_flatten, List.mem_map]
  constructor
  · rintro ⟨l, ⟨w, hw, rfl⟩, hz⟩
    exact ⟨w, hw, hz⟩
  · rintro ⟨w, hw, hz⟩
    exact ⟨_, ⟨w, hw, rfl⟩, hz⟩

/-- An interleaving may start with the head of any of the sequences. -/
theorem interleavings_cons_at {α : Type} : ∀ (queues : List (List α)) (k : Nat) (c : α)
    (more z : List α), queues.get? k = some (c :: more) →
      z ∈ interleavings (queues.set k more) → c :: z ∈ interleavings queues
  | [], k, c, more, z, h, _ => by simp at h
  | q :: qs, 0, c, more, z, h, hz => by
    have hq : q = c :: more := by simpa using h
    subst hq
    rw [List.set_cons_zero, mem_interleavings_cons] at hz
    obtain ⟨w, hw, hz⟩ := hz
    exact (mem_interleavings_cons _ _ _).mpr ⟨w, hw, merges_cons_left c more w z hz⟩
  | q :: qs, k + 1, c, more, z, h, hz => by
    have hk : qs.get? k = some (c :: more) := by simpa using h
    rw [List.set_cons_succ, mem_interleavings_cons] at hz
    obtain ⟨w, hw, hz⟩ := hz
    exact (mem_interleavings_cons _ _ _).mpr
      ⟨c :: w, interleavings_cons_at qs k c more w hk hw, merges_cons_right c q w z hz⟩

/-- Empty sequences interleave into the empty one. -/
theorem nil_mem_interleavings {α : Type} : ∀ (queues : List (List α)),
    (∀ q ∈ queues, q = []) → [] ∈ interleavings queues
  | [], _ => by simp [interleavings]
  | q :: qs, h => by
    have hq : q = [] := h q (List.mem_cons_self _ _)
    subst hq
    exact (mem_interleavings_cons _ _ _).mpr
      ⟨[], nil_mem_interleavings qs (fun q hq => h q (List.mem_cons_of_mem _ hq)), by
        simp [merges]⟩

/-- A schedule that leaves nothing to write puts the writes of the exporters into
the file in one of their interleavings. -/
theorem runSchedule_interleaving : ∀ (sched : List Nat) (queues : List (List (List Nat)))
    (file : List Nat), (∀ q ∈ (runSchedule sched queues file).2, q = []) →
      ∃ order ∈ interleavings queues, (runSchedule sched queues file).1 = file ++ order.flatten
  | [], queues, file, h => ⟨[], nil_mem_interleavings queues h, by simp [runSchedule]⟩
  | k :: rest, queues, file, h => by
    cases hk : queues.get? k with
    | none =>
      simp only [runSchedule, hk] at h ⊢
      exact runSchedule_interleaving rest queues file h
    | some q =>
      cases q with
      | nil =>
        simp only [runSchedule, hk] at h ⊢
        exact runSchedule_interleaving rest queues file h
      | cons c more =>
        simp only [runSchedule, hk] at h ⊢
        obtain ⟨order, ho, hf⟩ := runSchedule_interleaving rest (queues.set k more) (file ++ c) h
        exact ⟨c :: order, interleavings_cons_at queues k c more order hk ho, by
          rw [hf, List.flatten_cons, List.append_assoc]⟩

/-- Writing every record in one write would give, under any schedule, one of the
files of whole lines. -/
theorem runSchedule_wholeRecords (rows : List (List ScanResult)) (sched : List Nat)
    (h : ∀ q ∈ (runSchedule sched (recordLines rows) []).2, q = []) :
    (runSchedule sched (recordLines rows) []).1 ∈ wholeRecordFiles rows := by
  obtain ⟨order, ho, hf⟩ := runSchedule_interleaving sched (recordLines rows) [] h
  rw [hf, List.nil_append]
  exact List.mem_map.mpr ⟨order, ho, rfl⟩

/-- C9 (the code departs from the claim). Two exporters without any error, as for
a table of three rows with two shards: the first has the row `c`, the second a row
of 4090 letters `a` and a row of ten letters `b`.  The buffer of the second is full
five bytes into its second record and is written to the file there; the first
exporter then flushes its line, the second flushes its rest.  The file holds the
lines `bbbbbc` and `bbbbb`: it is none of the three files in which each record is
one whole line, and no schedule of whole-record writes produces it. -/
theorem rows_interleave_mid_record :
    exporterWrites shortRows = [[99, 10]] ∧
    exporterWrites (longRows 4090) =
      [List.replicate 4090 97 ++ [10, 98, 98, 98, 98, 98], [98, 98, 98, 98, 98, 10]] ∧
    runSchedule [1, 0, 1] [exporterWrites shortRows, exporterWrites (longRows 4090)] [] =
      (List.replicate 4090 97 ++ [10, 98, 98, 98, 98, 98, 99, 10, 98, 98, 98, 98, 98, 10],
        [[], []]) ∧
    wholeRecordFiles [shortRows, longRows 4090] =
      [[99, 10] ++ (List.replicate 4090 97 ++
          [10, 98, 98, 98, 98, 98, 98, 98, 98, 98, 98, 10]),
        List.replicate 4090 97 ++
          [10, 99, 10, 98, 98, 98, 98, 98, 98, 98, 98, 98, 98, 10],
        List.replicate 4090 97 ++
          [10, 98, 98, 98, 98, 98, 98, 98, 98, 98, 98, 10, 99, 10]] ∧
    (List.replicate 4090 97 ++ [10, 98, 98, 98, 98, 98, 99, 10, 98, 98, 98, 98, 98, 10]) ∉
      wholeRecordFiles [shortRows, longRows 4090] ∧
    (∀ sched : List Nat, runSchedule sched (recordLines [shortRows, longRows 4090]) [] ≠
      (List.replicate 4090 97 ++ [10, 98, 98, 98, 98, 98, 99, 10, 98, 98, 98, 98, 98, 10],
        [[], []])) :=
  ⟨(mixed_file_general 4089 rfl).1, (mixed_file_general 4089 rfl).2.1,
    (mixed_file_general 4089 rfl).2.2.1, wholeRecordFiles_example 4089,
    (mixed_file_general 4089 rfl).2.2.2,
    fun sched h => (mixed_file_general 4089 rfl).2.2.2 (by
      have hm := runSchedule_wholeRecords [shortRows, longRows 4090] sched (by
        rw [h]
        intro q hq
        simp only [List.mem_cons, List.mem_singleton, List.not_mem_nil, or_false, or_self] at hq
        exact hq)
      rw [h] at hm
      exact hm)⟩

end Dump
